import Mathlib

/- Formal model of the Escolinha de Futebol management application
   (src/app.py and src/models/), shallowly embedded in Lean.

   Conventions:
   * Python `Decimal` values are modelled as rationals (`ℚ`); the
     2-decimal-place quantization of `Decimal.quantize(Decimal("0.01"))`
     is `quantize2`, using round-half-to-even, the default context rounding.
   * Database tables are lists of rows; `Query.filter_by(...).first()` is
     `List.find?`, SQLAlchemy insertion appends to the end of the list,
     `db.session.delete` removes the found row, and in-place mutation of a
     fetched ORM object rewrites the first matching row.
   * Fallible Python operations (raising exceptions) return `Except Unit`. -/

namespace Escolinha

/-! ### Decimal arithmetic -/

/-- The floor of a rational, written so that it evaluates by kernel
reduction (the floor of the FloorRing instance is definitionally opaque
here); `ratFloor_eq_floor` below identifies the two. -/
def ratFloor (q : ℚ) : ℤ := Int.fdiv q.num q.den

/-- Round a rational to the nearest integer with ties to even.  This is the
rounding used both by Python Decimal quantize (ROUND_HALF_EVEN, the default
context rounding) and by the builtin round.  It is phrased on the numerator
and denominator so that it evaluates by kernel reduction: with f = ⌊q⌋ and
r = num − f·den, the fractional part q − f equals r/den, so it is below,
above or exactly at one half according as 2·r compares with den. -/
def roundHalfEven (q : ℚ) : ℤ :=
  let r := q.num - ratFloor q * (q.den : ℤ)
  if 2 * r < (q.den : ℤ) then ratFloor q
  else if (q.den : ℤ) < 2 * r then ratFloor q + 1
  else if ratFloor q % 2 = 0 then ratFloor q else ratFloor q + 1

/-- Python Decimal value quantized to two decimal places:
Decimal(v).quantize(Decimal("0.01")). -/
def quantize2 (q : ℚ) : ℚ := mkRat (roundHalfEven (q * 100)) 100

/-- Exact half-even rounding of a rational to one decimal place.  This is
the decimal rounding the Python builtin round applies to the exact binary
value of its float argument (see pyRound1 below for the full float
semantics of round(x, 1)). -/
def round1 (q : ℚ) : ℚ := mkRat (roundHalfEven (mkRat (q.num * 10) q.den)) 10

/-! ### Binary64 (Python float) arithmetic

app.py computes the paid percentage of the reconciliation summary in float
arithmetic: round((pagos / len(registros)) * 100, 1).  The helpers below
model IEEE-754 binary64 values exactly, as the rationals they denote. -/

/-- Structural base-2 integer logarithm with explicit fuel (the fuel only
needs to dominate the number of halvings, so `log2Aux n n` computes
⌊log2 n⌋ for n ≥ 1; the core Nat.log2 recurses by well-founded recursion,
which does not reduce in the kernel). -/
def log2Aux : Nat → Nat → Nat
  | 0, _ => 0
  | fuel + 1, n => if 2 ≤ n then log2Aux fuel (n / 2) + 1 else 0

/-- ⌊log2 n⌋ for n ≥ 1 (and 0 at 0). -/
def natLog2 (n : Nat) : Nat := log2Aux n n

/-- q·2^e, written with mkRat so that it evaluates by kernel reduction. -/
def mulPow2 (q : ℚ) (e : ℤ) : ℚ :=
  if 0 ≤ e then mkRat (q.num * 2 ^ e.toNat) q.den
  else mkRat q.num (q.den * 2 ^ (-e).toNat)

/-- Whether 2^e ≤ |q|, by cross-multiplying with the denominator. -/
def pow2le (e : ℤ) (q : ℚ) : Bool :=
  if 0 ≤ e then decide (q.den * 2 ^ e.toNat ≤ q.num.natAbs)
  else decide (q.den ≤ q.num.natAbs * 2 ^ (-e).toNat)

/-- ⌊log2 |q|⌋ for q ≠ 0: with a = ⌊log2 |num|⌋ and b = ⌊log2 den⌋ the
value |q| lies strictly between 2^(a−b−1) and 2^(a−b+1), so the answer is
a − b or a − b − 1, settled by one comparison. -/
def qlog2 (q : ℚ) : ℤ :=
  let c : ℤ := (natLog2 q.num.natAbs : ℤ) - (natLog2 q.den : ℤ)
  if pow2le c q then c else c - 1

/-- Round a rational to the nearest IEEE-754 binary64 value (round to
nearest, ties to even), returned as the exact rational that double
denotes.  A normal result keeps 53 significant bits — its quantum is
2^(⌊log2 |q|⌋ − 52) — and below 2^(−1022) the quantum is clamped to the
subnormal unit 2^(−1074).  Every value this development feeds it lies far
inside the finite range, so overflow to infinity is not modelled. -/
def toDouble (q : ℚ) : ℚ :=
  if q.num = 0 then 0
  else
    let e : ℤ := max (qlog2 q - 52) (-1074)
    mulPow2 (roundHalfEven (mulPow2 q (-e)) : ℚ) e

/-- Python int / int true division, e.g. pagos / len(registros): CPython
returns the exact quotient correctly rounded to binary64. -/
def floatDivNat (a b : ℕ) : ℚ := toDouble (mkRat a b)

/-- Binary64 multiplication by 100 (the int operand converts to float
exactly; the product is correctly rounded). -/
def floatMul100 (x : ℚ) : ℚ := toDouble (mkRat (x.num * 100) x.den)

/-- Python round(x, 1) on a float x: CPython rounds the exact binary value
of x half-even to one decimal place (the correctly rounded dtoa path of
float.__round__) and converts that decimal back to the nearest double. -/
def pyRound1 (x : ℚ) : ℚ := toDouble (round1 x)

/-! ### Dates (Python datetime.date, proleptic Gregorian calendar) -/

/-- A calendar date.  Python date objects always satisfy `dateValid` below;
here the fields are raw and validity is a predicate. -/
structure Date where
  year : Nat
  month : Nat
  day : Nat
  deriving Repr, DecidableEq

/-- calendar.isleap / the leap-year rule used by datetime. -/
def isleap (y : Nat) : Bool := decide (y % 4 = 0 ∧ (y % 100 ≠ 0 ∨ y % 400 = 0))

/-- calendar.mdays table: days of each month in a non-leap year
(index 0 is the placeholder 0). -/
def mdays : Nat → Nat
  | 1 => 31 | 2 => 28 | 3 => 31 | 4 => 30 | 5 => 31 | 6 => 30
  | 7 => 31 | 8 => 31 | 9 => 30 | 10 => 31 | 11 => 30 | 12 => 31
  | _ => 0

/-- Number of days of month `m` of year `y`: calendar.monthrange(y, m)[1]
(mdays[m] plus one for February of a leap year). -/
def daysInMonth (y m : Nat) : Nat := mdays m + (if m = 2 ∧ isleap y then 1 else 0)

/-- Days of year `y` (366 in leap years). -/
def daysInYear (y : Nat) : Nat := if isleap y then 366 else 365

/-- datetime's helper: number of days before January 1st of year `y`
(date.toordinal counts from 0001-01-01 = day 1). -/
def daysBeforeYear (y : Nat) : Nat :=
  365 * (y - 1) + (y - 1) / 4 - (y - 1) / 100 + (y - 1) / 400

/-- datetime's helper: number of days of year `y` strictly before month `m`. -/
def daysBeforeMonth (y : Nat) : Nat → Nat
  | 0 => 0
  | m + 1 => daysBeforeMonth y m + daysInMonth y m

/-- date.toordinal: day number of a date in the proleptic Gregorian calendar,
with 0001-01-01 mapped to 1. -/
def toOrdinal (d : Date) : Nat :=
  daysBeforeYear d.year + daysBeforeMonth d.year d.month + d.day

/-- The invariant every constructed Python date satisfies (datetime bounds
years to MINYEAR = 1 .. MAXYEAR = 9999). -/
def dateValid (d : Date) : Prop :=
  1 ≤ d.year ∧ d.year ≤ 9999 ∧ 1 ≤ d.month ∧ d.month ≤ 12 ∧
    1 ≤ d.day ∧ d.day ≤ daysInMonth d.year d.month

instance (d : Date) : Decidable (dateValid d) :=
  inferInstanceAs (Decidable (_ ∧ _))

/-- Python date comparison: lexicographic on (year, month, day). -/
def dateLt (a b : Date) : Prop :=
  a.year < b.year ∨ (a.year = b.year ∧
    (a.month < b.month ∨ (a.month = b.month ∧ a.day < b.day)))

instance (a b : Date) : Decidable (dateLt a b) :=
  inferInstanceAs (Decidable (_ ∨ _))

/-- date.replace with year y: keeps month and day, validating the resulting
date (raises ValueError for Feb 29 in a non-leap year, or a year outside
MINYEAR..MAXYEAR). -/
def replaceYear (d : Date) (y : Nat) : Except Unit Date :=
  if 1 ≤ y ∧ y ≤ 9999 ∧ 1 ≤ d.day ∧ d.day ≤ daysInMonth y d.month then
    .ok ⟨y, d.month, d.day⟩
  else .error ()

/-! ### Data model (src/models) -/

/-- models/turma.py: the fields of Turma relevant to the claims. -/
structure Turma where
  id : Nat
  nome : String
  deriving Repr, DecidableEq

/-- models/aluno.py: the fields of Aluno relevant to the claims.
valor_mensalidade is a Numeric(10,2) column, modelled as a rational. -/
structure Aluno where
  id : Nat
  nome : String
  status : String
  projeto_social : Bool
  valor_mensalidade : ℚ
  data_nascimento : Option Date
  turma_id : Option Nat
  deriving Repr, DecidableEq

/-- models/pagamento.py: a payment row.  The table has a unique constraint
on (aluno_id, competencia). -/
structure Pagamento where
  aluno_id : Nat
  competencia : Date
  pago : Bool
  data_pagamento : Option Date
  observacao : String
  valor : ℚ
  deriving Repr, DecidableEq

/-- models/presenca.py: an attendance row.  The table has a unique
constraint on (data, aluno_id). -/
structure Presenca where
  aluno_id : Nat
  turma_id : Nat
  data : Date
  presente : Bool
  deriving Repr, DecidableEq

/-- models/user.py: the fields of User relevant to the claims. -/
structure User where
  id : Nat
  username : String
  role : String
  deriving Repr, DecidableEq

/-! ### Generic list-as-table operations and string helpers -/

/-- Lexicographic comparison of character lists by code point. -/
def charListLt : List Char → List Char → Bool
  | [], [] => false
  | [], _ :: _ => true
  | _ :: _, [] => false
  | c :: cs, d :: ds =>
    if c.toNat < d.toNat then true
    else if d.toNat < c.toNat then false
    else charListLt cs ds

/-- Python string comparison `a < b`: lexicographic by code point (the same
order as SQL/SQLAlchemy ORDER BY on these ASCII names, and as Lean's
String.lt). -/
def pyStrLt (a b : String) : Bool := charListLt a.data b.data

instance : DecidableEq (Except Unit ℚ) := fun a b =>
  match a, b with
  | .ok x, .ok y => decidable_of_iff (x = y) (by simp)
  | .error _, .error _ => isTrue (by rfl)
  | .ok _, .error _ => isFalse (by simp)
  | .error _, .ok _ => isFalse (by simp)

instance : DecidableEq (Except Unit Date) := fun a b =>
  match a, b with
  | .ok x, .ok y => decidable_of_iff (x = y) (by simp)
  | .error _, .error _ => isTrue (by rfl)
  | .ok _, .error _ => isFalse (by simp)
  | .error _, .ok _ => isFalse (by simp)

instance : DecidableEq (Except Unit (Option ℤ)) := fun a b =>
  match a, b with
  | .ok x, .ok y => decidable_of_iff (x = y) (by simp)
  | .error _, .error _ => isTrue (by rfl)
  | .ok _, .error _ => isFalse (by simp)
  | .error _, .ok _ => isFalse (by simp)

/-- Rewriting a mutated ORM object back into its table: replace the first
element satisfying `f` by `x'` (fetched rows are first matches). -/
def replaceFirst {α : Type} (f : α → Bool) (x' : α) : List α → List α
  | [] => []
  | x :: xs => if f x then x' :: xs else x :: replaceFirst f x' xs

/-! ### Payment reconciliation (app.py, pagamentos_do_mes_referencia) -/

/-- Key predicate of Pagamento.query.filter_by(aluno_id = ..., competencia = ...). -/
def isKey (aid : Nat) (comp : Date) (p : Pagamento) : Bool :=
  decide (p.aluno_id = aid ∧ p.competencia = comp)

/-- A freshly constructed Pagamento(aluno = aluno, competencia = referencia):
column defaults pago = False, data_pagamento = None, observacao = "",
valor = 0.00. -/
def mkPagamento (a : Aluno) (comp : Date) : Pagamento :=
  { aluno_id := a.id, competencia := comp, pago := false,
    data_pagamento := none, observacao := "", valor := 0 }

/-- One iteration of the reconciliation loop (app.py lines 317-330) for
student `a`: returns the updated pagamentos table and the row appended to
`registros` (none for scholarship students).  The call
parse_decimal(aluno.valor_mensalidade, Decimal("0.00")) reduces to
quantize2 here: valor_mensalidade is a Numeric(10,2) column value, whose
quantization never overflows the 28-digit context precision. -/
def reconcileStudent (comp : Date) (tbl : List Pagamento) (a : Aluno) :
    List Pagamento × Option Pagamento :=
  match tbl.find? (isKey a.id comp) with
  | some p =>
    if a.projeto_social then
      (tbl.eraseP (isKey a.id comp), none)
    else
      let p' := { p with valor := quantize2 a.valor_mensalidade }
      (replaceFirst (isKey a.id comp) p' tbl, some p')
  | none =>
    if a.projeto_social then
      (tbl, none)
    else
      let p' := { mkPagamento a comp with valor := quantize2 a.valor_mensalidade }
      (tbl ++ [p'], some p')

/-- The reconciliation loop over the (name-ordered) student list: returns
the final pagamentos table and the `registros` list in loop order. -/
def reconcileAux (comp : Date) : List Aluno → List Pagamento →
    List Pagamento × List Pagamento
  | [], tbl => (tbl, [])
  | a :: rest, tbl =>
    let step := reconcileStudent comp tbl a
    let res := reconcileAux comp rest step.1
    (res.1, step.2.toList ++ res.2)

/-- The row the loop produces for a non-scholarship student `a`, in terms of
the table at the time `a` is processed: the fetched row with only `valor`
overwritten, or a fresh row. -/
def expectedRow (comp : Date) (tbl : List Pagamento) (a : Aluno) : Pagamento :=
  match tbl.find? (isKey a.id comp) with
  | some p => { p with valor := quantize2 a.valor_mensalidade }
  | none => { mkPagamento a comp with valor := quantize2 a.valor_mensalidade }

/-- The resumo dictionary (app.py lines 333-346).  percentual is the float
computation round((pagos / len(registros)) * 100, 1) — an int/int true
division and a multiplication in binary64, then the builtin round — and
the valor totals sum parse_decimal(registro.valor), i.e. the 2-dp
quantization of each stored value. -/
structure Resumo where
  pagos : Nat
  pendentes : Nat
  percentual : ℚ
  valor_previsto : ℚ
  valor_pago : ℚ
  valor_pendente : ℚ
  deriving Repr, DecidableEq

def resumoOf (registros : List Pagamento) : Resumo :=
  let pagos := (registros.filter (·.pago)).length
  let pendentes := registros.length - pagos
  let percentual :=
    if registros.length = 0 then 0
    else pyRound1 (floatMul100 (floatDivNat pagos registros.length))
  let valor_previsto := (registros.map (fun r => quantize2 r.valor)).sum
  let valor_pago := ((registros.filter (·.pago)).map (fun r => quantize2 r.valor)).sum
  { pagos := pagos, pendentes := pendentes, percentual := percentual,
    valor_previsto := valor_previsto, valor_pago := valor_pago,
    valor_pendente := valor_previsto - valor_pago }

/-- The relevant database state for reconciliation. -/
structure DB where
  alunos : List Aluno
  pagamentos : List Pagamento
  deriving Repr, DecidableEq

/-- Aluno.query.order_by(Aluno.nome).all(): the student table sorted by
name (a deterministic stable sort). -/
def sortAlunos (l : List Aluno) : List Aluno :=
  l.insertionSort (fun a b => pyStrLt b.nome a.nome = false)

/-- app.py pagamentos_do_mes_referencia: reconciles the payment rows of the
given competence-month and returns the updated database, the list of
(non-scholarship) payment rows, and the summary. -/
def pagamentos_do_mes_referencia (db : DB) (referencia : Date) :
    DB × List Pagamento × Resumo :=
  let alunos := sortAlunos db.alunos
  let res := reconcileAux referencia alunos db.pagamentos
  ({ alunos := db.alunos, pagamentos := res.1 }, res.2, resumoOf res.2)

/-! ### Due-date computation (app.py, calcular_vencimento) -/

/-- app.py calcular_vencimento: last day of the competence month via
calendar.monthrange (which raises IllegalMonthError outside 1..12), then
competencia.replace(day = min(dia_vencimento, ultimo_dia)) (replace raises
ValueError when the day is below 1). -/
def calcular_vencimento (competencia : Date) (dia_vencimento : Nat) :
    Except Unit Date :=
  if competencia.month < 1 ∨ 12 < competencia.month then .error ()
  else
    let ultimo_dia := daysInMonth competencia.year competencia.month
    let dia := min dia_vencimento ultimo_dia
    if dia < 1 then .error ()
    else .ok { competencia with day := dia }

/-! ### Attendance recording (app.py, presencas POST handler) -/

/-- Key predicate of Presenca.query.filter_by(aluno_id = ..., data = ...). -/
def isPKey (aid : Nat) (d : Date) (p : Presenca) : Bool :=
  decide (p.aluno_id = aid ∧ p.data = d)

/-- One iteration of the attendance loop (app.py lines 755-761) for student
`a` of the selected class: fetch-or-create the (student, date) row, then set
presente from membership in the submitted id set and refresh turma_id. -/
def presencaStep (turmaId : Nat) (d : Date) (presentesIds : List Nat)
    (tbl : List Presenca) (a : Aluno) : List Presenca :=
  match tbl.find? (isPKey a.id d) with
  | some p =>
    let p' := { p with presente := decide (a.id ∈ presentesIds), turma_id := turmaId }
    replaceFirst (isPKey a.id d) p' tbl
  | none =>
    tbl ++ [{ aluno_id := a.id, turma_id := turmaId, data := d,
              presente := decide (a.id ∈ presentesIds) }]

/-- The attendance POST loop over turma.alunos, returning the updated
presencas table. -/
def presencasAux (turmaId : Nat) (d : Date) (presentesIds : List Nat) :
    List Aluno → List Presenca → List Presenca
  | [], tbl => tbl
  | a :: rest, tbl =>
    presencasAux turmaId d presentesIds rest (presencaStep turmaId d presentesIds tbl a)

/-- The row the attendance loop leaves for student `a`, in terms of the
table at the time `a` is processed: the fetched row with presente and
turma_id overwritten, or a fresh row. -/
def expectedPres (turmaId : Nat) (d : Date) (presentesIds : List Nat)
    (tbl : List Presenca) (a : Aluno) : Presenca :=
  match tbl.find? (isPKey a.id d) with
  | some p => { p with presente := decide (a.id ∈ presentesIds), turma_id := turmaId }
  | none => { aluno_id := a.id, turma_id := turmaId, data := d,
              presente := decide (a.id ∈ presentesIds) }

/-! ### User management (app.py, manage_users POST handler) -/

/-- User.ROLE_CHOICES. -/
def ROLE_CHOICES : List String := ["admin", "gestor", "instrutor"]

/-- User.query.filter_by(role = "admin").count(). -/
def adminCount (users : List User) : Nat :=
  (users.filter (fun u => decide (u.role = "admin"))).length

/-- Python str.lower modelled character-wise (usernames are ASCII). -/
def pyLower (s : String) : String := ⟨s.data.map Char.toLower⟩

/-- app.py manage_users, action "update_role" (lines 964-977): returns none
for a 404 on an unknown user id, otherwise the (possibly unchanged) user
table and whether the role change was applied (false means a flashed error
with no mutation). -/
def update_role (users : List User) (currentId targetId : Nat) (role : String) :
    Option (List User × Bool) :=
  match users.find? (fun u => decide (u.id = targetId)) with
  | none => none
  | some usuario =>
    if ¬ role ∈ ROLE_CHOICES then some (users, false)
    else if usuario.id = currentId ∧ role ≠ "admin" ∧ adminCount users = 1 then
      some (users, false)
    else
      some (replaceFirst (fun u => decide (u.id = targetId))
        { usuario with role := role } users, true)

/-- app.py manage_users, action "delete" (lines 995-1010): returns none for
a 404 on an unknown user id, otherwise the (possibly unchanged) user table
and whether the deletion was performed. -/
def delete_user (users : List User) (currentId targetId : Nat) :
    Option (List User × Bool) :=
  match users.find? (fun u => decide (u.id = targetId)) with
  | none => none
  | some usuario =>
    if pyLower usuario.username = "admin" then some (users, false)
    else if usuario.id = currentId then some (users, false)
    else if usuario.role = "admin" ∧ adminCount users = 1 then some (users, false)
    else some (users.eraseP (fun u => decide (u.id = targetId)), true)

/-! ### parse_decimal (app.py lines 178-187) -/

/-- The input type of parse_decimal: None, a number — an int, float or
Decimal, a finite one modelled by its exact rational value, plus the
non-finite values NaN and ±Infinity a float or Decimal can hold — or a
string. -/
inductive PDInput where
  | noneV : PDInput
  | num : ℚ → PDInput
  | numNan : PDInput
  | numInf : PDInput
  | str : String → PDInput

/-- A value parse_decimal can return: a finite Decimal, or the quiet NaN
that a NaN input propagates through quantize (NaN.quantize returns NaN
without raising). -/
inductive PyDec where
  | fin : ℚ → PyDec
  | nan : PyDec
  deriving Repr, DecidableEq

/-- Decimal quantize to two places under the default context (precision 28,
ROUND_HALF_EVEN): raises InvalidOperation when the coefficient of the
result would exceed 28 digits. -/
def quantize2E (q : ℚ) : Except Unit ℚ :=
  if (roundHalfEven (q * 100)).natAbs < 10 ^ 28 then .ok (quantize2 q)
  else .error ()

/-- Python str.strip: drop leading and trailing whitespace. -/
def pyStrip (s : String) : String :=
  ⟨((s.data.dropWhile Char.isWhitespace).reverse.dropWhile Char.isWhitespace).reverse⟩

/-- value.replace(".", ""): remove every dot (str.replace specialised to the
single-character pattern used here). -/
def removeDots (s : String) : String := ⟨s.data.filter (fun c => ¬ c = '.')⟩

/-- value.replace(",", "."): map every comma to a dot. -/
def commaToDot (s : String) : String :=
  ⟨s.data.map (fun c => if c = ',' then '.' else c)⟩

def isAsciiDigit (c : Char) : Bool := decide ('0' ≤ c) && decide (c ≤ '9')

def digitsToNat (ds : List Char) : Nat :=
  ds.foldl (fun acc c => 10 * acc + (c.toNat - '0'.toNat)) 0

/-- Parse an unsigned decimal coefficient: digits, optionally with a dot
(at least one digit overall).  Returns the value and the unconsumed rest. -/
def parseCoeff (cs : List Char) : Option (ℚ × List Char) :=
  let ip := cs.takeWhile isAsciiDigit
  let r1 := cs.dropWhile isAsciiDigit
  match r1 with
  | '.' :: r2 =>
    let fp := r2.takeWhile isAsciiDigit
    let r3 := r2.dropWhile isAsciiDigit
    if ip.isEmpty ∧ fp.isEmpty then none
    else some ((digitsToNat ip : ℚ) + mkRat (digitsToNat fp) (10 ^ fp.length), r3)
  | _ => if ip.isEmpty then none else some ((digitsToNat ip : ℚ), r1)

/-- Parse an optionally signed integer exponent, requiring the whole rest of
the input to be consumed. -/
def parseExponent (cs : List Char) : Option ℤ :=
  let signRes : (Bool × List Char) :=
    match cs with
    | '+' :: r => (false, r)
    | '-' :: r => (true, r)
    | _ => (false, cs)
  let ds := signRes.2.takeWhile isAsciiDigit
  if ds.isEmpty ∨ ¬ (signRes.2.dropWhile isAsciiDigit).isEmpty then none
  else some (if signRes.1 then -(digitsToNat ds : ℤ) else (digitsToNat ds : ℤ))

/-- Ten to an integer power, as an evaluating rational. -/
def zpow10 (ex : ℤ) : ℚ :=
  if 0 ≤ ex then ((10 : ℚ)) ^ ex.toNat else mkRat 1 (10 ^ (-ex).toNat)

/-- How Decimal(cleaned).quantize(Decimal("0.01")) behaves on a string,
before the try/except is taken into account: a finite value (quantize
rounds it, or overflows), a quiet NaN (quantize returns NaN without
raising), a raising special — Infinity, whose quantize raises
InvalidOperation, or a signaling NaN, which signals on any operation — or
a malformed string (the constructor itself raises InvalidOperation). -/
inductive StrDecimal where
  | fin : ℚ → StrDecimal
  | qnan : StrDecimal
  | raising : StrDecimal
  | malformed : StrDecimal

/-- Classify a string as the Decimal(str) constructor does: strip
surrounding whitespace and remove underscores (as the constructor does),
take an optional sign, then either one of the special forms — all
case-insensitive: Infinity or Inf; NaN or sNaN, each with an optional
digit payload — or a finite decimal coefficient with an optional exponent.
Anything else is malformed. -/
def pyDecimalParse (s : String) : StrDecimal :=
  let cs := (pyStrip s).data.filter (fun c => ¬ c = '_')
  let signRes : (Bool × List Char) :=
    match cs with
    | '+' :: r => (false, r)
    | '-' :: r => (true, r)
    | _ => (false, cs)
  let low := signRes.2.map Char.toLower
  if low = "inf".data ∨ low = "infinity".data then .raising
  else if decide (low.take 3 = "nan".data) && (low.drop 3).all isAsciiDigit then
    .qnan
  else if decide (low.take 4 = "snan".data) && (low.drop 4).all isAsciiDigit then
    .raising
  else
    match parseCoeff signRes.2 with
    | none => .malformed
    | some (v, rest) =>
      let v' : ℚ := if signRes.1 then -v else v
      match rest with
      | [] => .fin v'
      | e :: r2 =>
        if e = 'e' ∨ e = 'E' then
          match parseExponent r2 with
          | some ex => .fin (v' * zpow10 ex)
          | none => .malformed
        else .malformed

/-- app.py parse_decimal.  None yields the supplied default; int/float/
Decimal inputs are quantized directly — outside the try/except, so a
quantize overflow or an infinite input raises (.error), while a NaN input
propagates through quantize as NaN; strings are cleaned (strip, drop
thousands dots, comma to decimal dot) and fed to
Decimal(cleaned).quantize(...) inside the try/except: a finite string
quantizes (an overflow there is caught and yields the default), a
quiet-NaN string yields Decimal('NaN') — NaN.quantize does not raise, so
the except clause is not reached — and a malformed, infinite or
signaling-NaN string yields the default. -/
def parse_decimal (value : PDInput) (dflt : ℚ) : Except Unit PyDec :=
  match value with
  | .noneV => .ok (.fin dflt)
  | .num q =>
    match quantize2E q with
    | .ok r => .ok (.fin r)
    | .error _ => .error ()
  | .numNan => .ok .nan
  | .numInf => .error ()
  | .str s =>
    let cleaned := commaToDot (removeDots (pyStrip s))
    match pyDecimalParse cleaned with
    | .fin q =>
      match quantize2E q with
      | .ok r => .ok (.fin r)
      | .error _ => .ok (.fin dflt)
    | .qnan => .ok .nan
    | .raising => .ok (.fin dflt)
    | .malformed => .ok (.fin dflt)

instance : DecidableEq (Except Unit PyDec) := fun a b =>
  match a, b with
  | .ok x, .ok y => decidable_of_iff (x = y) (by simp)
  | .error _, .error _ => isTrue (by rfl)
  | .ok _, .error _ => isFalse (by simp)
  | .error _, .ok _ => isFalse (by simp)

/-! ### Birthdays (models/aluno.py dias_para_aniversario, app.py upcoming_birthdays) -/

/-- Aluno.dias_para_aniversario: None without a birth date; otherwise the
birth date moved to the reference year (next year when already passed),
minus the reference date, in days.  Either replace can raise ValueError
(Feb 29 in a non-leap target year, or a year past MAXYEAR). -/
def dias_para_aniversario (data_nascimento : Option Date) (referencia : Date) :
    Except Unit (Option ℤ) :=
  match data_nascimento with
  | none => .ok none
  | some nasc =>
    match replaceYear nasc referencia.year with
    | .error _ => .error ()
    | .ok proximo =>
      if dateLt proximo referencia then
        match replaceYear proximo (referencia.year + 1) with
        | .error _ => .error ()
        | .ok proximo' => .ok (some ((toOrdinal proximo' : ℤ) - (toOrdinal referencia : ℤ)))
      else .ok (some ((toOrdinal proximo : ℤ) - (toOrdinal referencia : ℤ)))

/-- One entry of the upcoming-birthday list. -/
structure BirthdayEntry where
  nome : String
  data : Option Date
  dias : ℤ
  turma : String
  deriving Repr, DecidableEq

instance : DecidableEq (Except Unit (List BirthdayEntry)) := fun a b =>
  match a, b with
  | .ok x, .ok y => decidable_of_iff (x = y) (by simp)
  | .error _, .error _ => isTrue (by rfl)
  | .ok _, .error _ => isFalse (by simp)
  | .error _, .ok _ => isFalse (by simp)

/-- The dictionary built for one student (aluno.turma.nome via the turmas
table, "Sem turma" when unset). -/
def mkEntry (turmas : List Turma) (a : Aluno) (dias : ℤ) : BirthdayEntry :=
  { nome := a.nome, data := a.data_nascimento, dias := dias,
    turma := (match a.turma_id.bind
        (fun tid => turmas.find? (fun t => decide (t.id = tid))) with
      | some t => t.nome
      | none => "Sem turma") }

/-- The filtering loop of upcoming_birthdays: skip students without a birth
date or more than 45 days away; an exception from dias_para_aniversario
propagates. -/
def upcomingAux (turmas : List Turma) (hoje : Date) :
    List Aluno → Except Unit (List BirthdayEntry)
  | [] => .ok []
  | a :: rest =>
    match dias_para_aniversario a.data_nascimento hoje with
    | .error _ => .error ()
    | .ok none => upcomingAux turmas hoje rest
    | .ok (some dias) =>
      if 45 < dias then upcomingAux turmas hoje rest
      else
        match upcomingAux turmas hoje rest with
        | .error _ => .error ()
        | .ok l => .ok (mkEntry turmas a dias :: l)

/-- app.py upcoming_birthdays: filter, sort ascending by days remaining
(Python's stable sort), keep the first 6. -/
def upcoming_birthdays (turmas : List Turma) (alunos : List Aluno) (hoje : Date) :
    Except Unit (List BirthdayEntry) :=
  match upcomingAux turmas hoje alunos with
  | .error _ => .error ()
  | .ok proximos =>
    .ok (((proximos.insertionSort (fun e f => e.dias ≤ f.dias)).take 6))

/-! ### Concrete instances used by witnesses and counterexamples -/

/-- A competence month used by concrete instances. -/
def mesW : Date := ⟨2024, 3, 1⟩

/-- Two students (one on scholarship with a stale payment row, one active
with an already-paid row at an outdated value). -/
def dbC1 : DB :=
  { alunos :=
      [{ id := 2, nome := "Bia", status := "ativo", projeto_social := true,
         valor_mensalidade := 0, data_nascimento := none, turma_id := none },
       { id := 1, nome := "Ana", status := "ativo", projeto_social := false,
         valor_mensalidade := 150, data_nascimento := none, turma_id := none }],
    pagamentos :=
      [{ aluno_id := 2, competencia := ⟨2024, 3, 1⟩, pago := false,
         data_pagamento := none, observacao := "", valor := 80 },
       { aluno_id := 1, competencia := ⟨2024, 3, 1⟩, pago := true,
         data_pagamento := some ⟨2024, 3, 5⟩, observacao := "", valor := 100 }] }

/-- A single inactive, non-scholarship student and an empty payment table. -/
def dbC2 : DB :=
  { alunos :=
      [{ id := 1, nome := "Ana", status := "inativo", projeto_social := false,
         valor_mensalidade := 50, data_nascimento := none, turma_id := none }],
    pagamentos := [] }

/-- An active and an inactive student, no scholarships. -/
def dbC2a : DB :=
  { alunos :=
      [{ id := 1, nome := "Ana", status := "ativo", projeto_social := false,
         valor_mensalidade := 150, data_nascimento := none, turma_id := none },
       { id := 2, nome := "Caio", status := "inativo", projeto_social := false,
         valor_mensalidade := 90, data_nascimento := none, turma_id := none }],
    pagamentos := [] }

/-- A scholarship student. -/
def alunoC3 : Aluno :=
  { id := 5, nome := "Duda", status := "ativo", projeto_social := true,
    valor_mensalidade := 0, data_nascimento := none, turma_id := none }

/-- A database where the scholarship student holds a stale payment row. -/
def dbC3 : DB :=
  { alunos := [alunoC3],
    pagamentos :=
      [{ aluno_id := 5, competencia := ⟨2024, 3, 1⟩, pago := true,
         data_pagamento := some ⟨2024, 3, 2⟩, observacao := "", valor := 70 }] }

/-- A non-scholarship student with monthly fee 150. -/
def alunoC4 : Aluno :=
  { id := 3, nome := "Edu", status := "ativo", projeto_social := false,
    valor_mensalidade := 150, data_nascimento := none, turma_id := none }

/-- A database where that student's existing row is paid at an old value. -/
def dbC4 : DB :=
  { alunos := [alunoC4],
    pagamentos :=
      [{ aluno_id := 3, competencia := ⟨2024, 3, 1⟩, pago := true,
         data_pagamento := some ⟨2024, 3, 7⟩, observacao := "", valor := 120 }] }

/-- Eighty non-scholarship students, the first 23 holding an existing paid
row for the competence month, so that 23 of the 80 returned rows are paid
and the paid ratio is exactly 23/80 = 0.2875. -/
def dbC5 : DB :=
  { alunos := (List.range 80).map (fun i =>
      { id := i + 1, nome := "A", status := "ativo", projeto_social := false,
        valor_mensalidade := 100, data_nascimento := none, turma_id := none }),
    pagamentos := (List.range 23).map (fun i =>
      { aluno_id := i + 1, competencia := ⟨2024, 3, 1⟩, pago := true,
        data_pagamento := some ⟨2024, 3, 2⟩, observacao := "", valor := 100 }) }

/-- A two-student class roster for the attendance witness. -/
def alunosC7 : List Aluno :=
  [{ id := 1, nome := "Ana", status := "ativo", projeto_social := false,
     valor_mensalidade := 150, data_nascimento := none, turma_id := some 7 },
   { id := 2, nome := "Bia", status := "ativo", projeto_social := false,
     valor_mensalidade := 150, data_nascimento := none, turma_id := some 7 }]

/-- A presencas table holding one stale row for student 1 on the session
date. -/
def presTblC7 : List Presenca :=
  [{ aluno_id := 1, turma_id := 9, data := ⟨2024, 3, 4⟩, presente := true }]

/-- The default admin account. -/
def adminC8 : User := { id := 1, username := "admin", role := "admin" }

/-- A user table with a single admin (the default account) and a manager. -/
def usersC8 : List User :=
  [adminC8, { id := 2, username := "maria", role := "gestor" }]

/-- A student born on February 29. -/
def alunoC10 : Aluno :=
  { id := 4, nome := "Leo", status := "ativo", projeto_social := false,
    valor_mensalidade := 0, data_nascimento := some ⟨2000, 2, 29⟩,
    turma_id := none }

/-! ## Lemmas: rational rounding -/

theorem ratFloor_eq_floor (q : ℚ) : ratFloor q = ⌊q⌋ := by
  rw [ratFloor, Int.fdiv_eq_ediv _ (by exact_mod_cast Nat.zero_le q.den), Rat.floor_def]

theorem roundHalfEven_intCast (n : ℤ) : roundHalfEven (n : ℚ) = n := by
  have h1 : ratFloor (n : ℚ) = n := by
    rw [ratFloor_eq_floor]
    exact Int.floor_intCast n
  have hnum : (n : ℚ).num = n := Rat.num_intCast n
  have hden : (n : ℚ).den = 1 := Rat.den_intCast n
  rw [roundHalfEven, h1, hnum, hden]
  norm_num

theorem quantize2_mkRat100 (n : ℤ) : quantize2 (mkRat n 100) = mkRat n 100 := by
  have h : (mkRat n 100 : ℚ) * 100 = (n : ℚ) := by
    rw [Rat.mkRat_eq_div]
    push_cast
    field_simp
  rw [quantize2, h, roundHalfEven_intCast]

theorem quantize2_idem (q : ℚ) : quantize2 (quantize2 q) = quantize2 q :=
  quantize2_mkRat100 _

/-! ## Lemmas: generic list-as-table operations -/

theorem length_replaceFirst {α : Type} (f : α → Bool) (x' : α) :
    ∀ l : List α, (replaceFirst f x' l).length = l.length
  | [] => rfl
  | x :: xs => by
    by_cases h : f x <;> simp [replaceFirst, h, length_replaceFirst f x' xs]

theorem find?_replaceFirst_of_neg {α : Type} {f g : α → Bool} {x' : α}
    (hfg : ∀ y, f y = true → g y = false) (hx : g x' = false) :
    ∀ l : List α, (replaceFirst f x' l).find? g = l.find? g
  | [] => rfl
  | x :: xs => by
    cases hfx : f x with
    | true =>
      simp [replaceFirst, hfx, List.find?_cons, hx, hfg x hfx]
    | false =>
      simp only [replaceFirst, hfx, Bool.false_eq_true, if_false]
      rw [List.find?_cons, List.find?_cons]
      cases g x
      · exact find?_replaceFirst_of_neg hfg hx xs
      · rfl

theorem find?_replaceFirst_self {α : Type} {f : α → Bool} {x' : α}
    (hx : f x' = true) :
    ∀ {l : List α} {p : α}, l.find? f = some p →
      (replaceFirst f x' l).find? f = some x'
  | [], _, h => by cases h
  | x :: xs, p, h => by
    cases hfx : f x with
    | true => simp [replaceFirst, hfx, hx]
    | false =>
      rw [List.find?_cons_of_neg _ (by simp [hfx])] at h
      simp only [replaceFirst, hfx, Bool.false_eq_true, if_false]
      rw [List.find?_cons_of_neg _ (by simp [hfx])]
      exact find?_replaceFirst_self hx h

theorem filter_replaceFirst_of_neg {α : Type} {f g : α → Bool} {x' : α}
    (hfg : ∀ y, f y = true → g y = false) (hx : g x' = false) :
    ∀ l : List α, (replaceFirst f x' l).filter g = l.filter g
  | [] => rfl
  | x :: xs => by
    cases hfx : f x with
    | true =>
      simp [replaceFirst, hfx, List.filter_cons, hx, hfg x hfx]
    | false =>
      simp only [replaceFirst, hfx, Bool.false_eq_true, if_false]
      rw [List.filter_cons, List.filter_cons]
      cases g x <;> simp [filter_replaceFirst_of_neg hfg hx xs]

theorem filter_eraseP_of_neg {α : Type} {q g : α → Bool}
    (hqg : ∀ y, q y = true → g y = false) :
    ∀ l : List α, (l.eraseP q).filter g = l.filter g
  | [] => rfl
  | x :: xs => by
    cases hqx : q x with
    | true =>
      rw [List.eraseP_cons_of_pos hqx, List.filter_cons]
      simp [hqg x hqx]
    | false =>
      rw [List.eraseP_cons_of_neg (by simp [hqx]), List.filter_cons, List.filter_cons]
      cases g x <;> simp [filter_eraseP_of_neg hqg xs]

theorem filter_singleton_of_find? {α : Type} {q : α → Bool} :
    ∀ {l : List α} {p : α}, l.find? q = some p → (l.filter q).length ≤ 1 →
      l.filter q = [p]
  | [], p, h, _ => by cases h
  | x :: xs, p, h, hlen => by
    cases hqx : q x with
    | true =>
      rw [List.find?_cons_of_pos _ hqx] at h
      cases h
      rw [List.filter_cons_of_pos hqx] at hlen ⊢
      have : xs.filter q = [] := by
        cases hfe : xs.filter q with
        | nil => rfl
        | cons y ys => rw [hfe] at hlen; simp at hlen
      rw [this]
    | false =>
      rw [List.find?_cons_of_neg _ (by simp [hqx])] at h
      rw [List.filter_cons_of_neg (by simp [hqx])] at hlen ⊢
      exact filter_singleton_of_find? h hlen

theorem filter_eraseP_self {α : Type} {q : α → Bool} :
    ∀ l : List α, (l.filter q).length ≤ 1 → (l.eraseP q).filter q = []
  | [], _ => rfl
  | x :: xs, hlen => by
    cases hqx : q x with
    | true =>
      rw [List.eraseP_cons_of_pos hqx]
      rw [List.filter_cons_of_pos hqx] at hlen
      cases hfe : xs.filter q with
      | nil => rfl
      | cons y ys => rw [hfe] at hlen; simp at hlen
    | false =>
      rw [List.eraseP_cons_of_neg (by simp [hqx]), List.filter_cons_of_neg (by simp [hqx])]
      rw [List.filter_cons_of_neg (by simp [hqx])] at hlen
      exact filter_eraseP_self xs hlen

theorem replaceFirst_find?_self {α : Type} {f : α → Bool} :
    ∀ {l : List α} {p : α}, l.find? f = some p → replaceFirst f p l = l
  | [], p, h => by cases h
  | x :: xs, p, h => by
    cases hfx : f x with
    | true =>
      rw [List.find?_cons_of_pos _ hfx] at h
      cases h
      simp [replaceFirst, hfx]
    | false =>
      rw [List.find?_cons_of_neg _ (by simp [hfx])] at h
      simp only [replaceFirst, hfx, Bool.false_eq_true, if_false]
      rw [replaceFirst_find?_self h]

theorem length_filter_le_one_of_pairwise {α : Type} {R : α → α → Prop} {q : α → Bool} :
    ∀ {l : List α}, List.Pairwise R l → (∀ a b, q a = true → q b = true → ¬ R a b) →
      (l.filter q).length ≤ 1
  | [], _, _ => by simp
  | x :: xs, hpw, hq => by
    rw [List.pairwise_cons] at hpw
    cases hqx : q x with
    | true =>
      rw [List.filter_cons_of_pos hqx]
      have : xs.filter q = [] := by
        rw [List.filter_eq_nil_iff]
        intro y hy hqy
        exact hq x y hqx hqy (hpw.1 y hy)
      rw [this]
      simp
    | false =>
      rw [List.filter_cons_of_neg (by simp [hqx])]
      exact length_filter_le_one_of_pairwise hpw.2 hq

theorem find?_eraseP_of_neg {α : Type} {q g : α → Bool}
    (hqg : ∀ y, q y = true → g y = false) :
    ∀ l : List α, (l.eraseP q).find? g = l.find? g
  | [] => rfl
  | x :: xs => by
    cases hqx : q x with
    | true =>
      rw [List.eraseP_cons_of_pos hqx, List.find?_cons_of_neg _ (by simp [hqg x hqx])]
    | false =>
      rw [List.eraseP_cons_of_neg (by simp [hqx]), List.find?_cons, List.find?_cons]
      cases g x
      · exact find?_eraseP_of_neg hqg xs
      · rfl

/-! ## Lemmas: payment reconciliation -/

theorem isKey_iff {aid : Nat} {comp : Date} {p : Pagamento} :
    isKey aid comp p = true ↔ p.aluno_id = aid ∧ p.competencia = comp := by
  simp [isKey]

theorem isKey_setValor {aid : Nat} {comp : Date} {p : Pagamento} {v : ℚ} :
    isKey aid comp { p with valor := v } = isKey aid comp p := by
  simp [isKey]

theorem expectedRow_aluno_id (comp : Date) (tbl : List Pagamento) (a : Aluno) :
    (expectedRow comp tbl a).aluno_id = a.id := by
  rw [expectedRow]
  cases hf : tbl.find? (isKey a.id comp) with
  | some p => exact (isKey_iff.mp (List.find?_some hf)).1
  | none => rfl

theorem expectedRow_competencia (comp : Date) (tbl : List Pagamento) (a : Aluno) :
    (expectedRow comp tbl a).competencia = comp := by
  rw [expectedRow]
  cases hf : tbl.find? (isKey a.id comp) with
  | some p => exact (isKey_iff.mp (List.find?_some hf)).2
  | none => rfl

theorem expectedRow_valor (comp : Date) (tbl : List Pagamento) (a : Aluno) :
    (expectedRow comp tbl a).valor = quantize2 a.valor_mensalidade := by
  rw [expectedRow]
  cases tbl.find? (isKey a.id comp) <;> rfl

theorem isKey_expectedRow (comp : Date) (tbl : List Pagamento) (a : Aluno) :
    isKey a.id comp (expectedRow comp tbl a) = true :=
  isKey_iff.mpr ⟨expectedRow_aluno_id comp tbl a, expectedRow_competencia comp tbl a⟩

theorem expectedRow_setValor (comp : Date) (tbl : List Pagamento) (a : Aluno) :
    { expectedRow comp tbl a with valor := quantize2 a.valor_mensalidade } =
      expectedRow comp tbl a := by
  rw [expectedRow]
  cases tbl.find? (isKey a.id comp) <;> rfl

theorem isKey_neg_of_ne {bid aid : Nat} {comp : Date} (h : bid ≠ aid) :
    ∀ y : Pagamento, isKey bid comp y = true → isKey aid comp y = false := by
  intro y hy
  rw [isKey_iff] at hy
  simp [isKey, hy.1, h]

theorem reconcileStudent_find_ne {comp : Date} {tbl : List Pagamento} {b : Aluno}
    {aid : Nat} (h : b.id ≠ aid) :
    ((reconcileStudent comp tbl b).1).find? (isKey aid comp) =
      tbl.find? (isKey aid comp) := by
  rw [reconcileStudent]
  cases hf : tbl.find? (isKey b.id comp) with
  | some p =>
    have hp := isKey_iff.mp (List.find?_some hf)
    cases hsch : b.projeto_social
    · simp only [Bool.false_eq_true, if_false]
      exact find?_replaceFirst_of_neg (isKey_neg_of_ne h)
        (by rw [isKey_setValor]; exact isKey_neg_of_ne h p (List.find?_some hf)) tbl
    · simp only [if_true]
      exact find?_eraseP_of_neg (isKey_neg_of_ne h) tbl
  | none =>
    cases hsch : b.projeto_social
    · simp only [Bool.false_eq_true, if_false, List.find?_append]
      have : List.find? (isKey aid comp)
          [{ mkPagamento b comp with valor := quantize2 b.valor_mensalidade }] = none := by
        simp [List.find?, isKey, mkPagamento, h]
      rw [this, Option.or_none]
    · simp only [if_true]

theorem reconcileStudent_filter_ne {comp : Date} {tbl : List Pagamento} {b : Aluno}
    {aid : Nat} (h : b.id ≠ aid) :
    ((reconcileStudent comp tbl b).1).filter (isKey aid comp) =
      tbl.filter (isKey aid comp) := by
  rw [reconcileStudent]
  cases hf : tbl.find? (isKey b.id comp) with
  | some p =>
    cases hsch : b.projeto_social
    · simp only [Bool.false_eq_true, if_false]
      exact filter_replaceFirst_of_neg (isKey_neg_of_ne h)
        (by rw [isKey_setValor]; exact isKey_neg_of_ne h p (List.find?_some hf)) tbl
    · simp only [if_true]
      exact filter_eraseP_of_neg (isKey_neg_of_ne h) tbl
  | none =>
    cases hsch : b.projeto_social
    · simp only [Bool.false_eq_true, if_false, List.filter_append]
      have : List.filter (isKey aid comp)
          [{ mkPagamento b comp with valor := quantize2 b.valor_mensalidade }] = [] := by
        simp [List.filter, isKey, mkPagamento, h]
      rw [this, List.append_nil]
    · simp only [if_true]

theorem reconcileStudent_snd (comp : Date) (tbl : List Pagamento) (a : Aluno) :
    (reconcileStudent comp tbl a).2 =
      if a.projeto_social then none else some (expectedRow comp tbl a) := by
  rw [reconcileStudent, expectedRow]
  cases tbl.find? (isKey a.id comp) <;> cases a.projeto_social <;> simp

theorem reconcileStudent_find_self {comp : Date} {tbl : List Pagamento} {a : Aluno}
    (hns : a.projeto_social = false) :
    ((reconcileStudent comp tbl a).1).find? (isKey a.id comp) =
      some (expectedRow comp tbl a) := by
  rw [reconcileStudent, expectedRow]
  cases hf : tbl.find? (isKey a.id comp) with
  | some p =>
    simp only [hns, Bool.false_eq_true, if_false]
    exact find?_replaceFirst_self
      (by rw [isKey_setValor]; exact List.find?_some hf) hf
  | none =>
    simp only [hns, Bool.false_eq_true, if_false, List.find?_append, hf, Option.none_or]
    simp [List.find?, isKey, mkPagamento]

theorem expectedRow_step_ne {comp : Date} {tbl : List Pagamento} {b a : Aluno}
    (h : b.id ≠ a.id) :
    expectedRow comp (reconcileStudent comp tbl b).1 a = expectedRow comp tbl a := by
  rw [expectedRow, expectedRow, reconcileStudent_find_ne h]

theorem reconcileAux_fst (comp : Date) (a : Aluno) (rest : List Aluno)
    (tbl : List Pagamento) :
    (reconcileAux comp (a :: rest) tbl).1 =
      (reconcileAux comp rest (reconcileStudent comp tbl a).1).1 := rfl

theorem reconcileAux_snd_cons (comp : Date) (a : Aluno) (rest : List Aluno)
    (tbl : List Pagamento) :
    (reconcileAux comp (a :: rest) tbl).2 =
      (reconcileStudent comp tbl a).2.toList ++
        (reconcileAux comp rest (reconcileStudent comp tbl a).1).2 := rfl

theorem reconcileAux_find_ne (comp : Date) :
    ∀ (alunos : List Aluno) (tbl : List Pagamento) (aid : Nat),
      (∀ b ∈ alunos, b.id ≠ aid) →
      ((reconcileAux comp alunos tbl).1).find? (isKey aid comp) =
        tbl.find? (isKey aid comp)
  | [], _, _, _ => rfl
  | a :: rest, tbl, aid, h => by
    rw [reconcileAux_fst,
      reconcileAux_find_ne comp rest _ aid (fun b hb => h b (List.mem_cons_of_mem a hb)),
      reconcileStudent_find_ne (h a (List.mem_cons_self a rest))]

theorem reconcileAux_filter_ne (comp : Date) :
    ∀ (alunos : List Aluno) (tbl : List Pagamento) (aid : Nat),
      (∀ b ∈ alunos, b.id ≠ aid) →
      ((reconcileAux comp alunos tbl).1).filter (isKey aid comp) =
        tbl.filter (isKey aid comp)
  | [], _, _, _ => rfl
  | a :: rest, tbl, aid, h => by
    rw [reconcileAux_fst,
      reconcileAux_filter_ne comp rest _ aid (fun b hb => h b (List.mem_cons_of_mem a hb)),
      reconcileStudent_filter_ne (h a (List.mem_cons_self a rest))]

theorem reconcileAux_snd (comp : Date) :
    ∀ (alunos : List Aluno) (tbl : List Pagamento),
      (alunos.map (·.id)).Nodup →
      (reconcileAux comp alunos tbl).2 =
        alunos.filterMap
          (fun a => if a.projeto_social then none else some (expectedRow comp tbl a))
  | [], _, _ => rfl
  | a :: rest, tbl, hnodup => by
    rw [List.map_cons, List.nodup_cons] at hnodup
    rw [reconcileAux_snd_cons, List.filterMap_cons,
      reconcileAux_snd comp rest _ hnodup.2, reconcileStudent_snd]
    have hcongr : rest.filterMap
        (fun b => if b.projeto_social then none
                  else some (expectedRow comp (reconcileStudent comp tbl a).1 b)) =
      rest.filterMap
        (fun b => if b.projeto_social then none else some (expectedRow comp tbl b)) := by
      apply List.filterMap_congr
      intro b hb
      have hne : a.id ≠ b.id := fun he => hnodup.1 (he ▸ List.mem_map_of_mem _ hb)
      rw [expectedRow_step_ne hne]
    rw [hcongr]
    cases a.projeto_social <;> simp

theorem reconcileAux_find_of_mem (comp : Date) :
    ∀ {alunos : List Aluno} {tbl : List Pagamento} {a : Aluno},
      (alunos.map (·.id)).Nodup → a ∈ alunos → a.projeto_social = false →
      ((reconcileAux comp alunos tbl).1).find? (isKey a.id comp) =
        some (expectedRow comp tbl a)
  | [], _, _, _, ha, _ => by cases ha
  | b :: rest, tbl, a, hnodup, ha, hns => by
    rw [List.map_cons, List.nodup_cons] at hnodup
    rcases List.mem_cons.mp ha with rfl | hmem
    · rw [reconcileAux_fst,
        reconcileAux_find_ne comp rest _ a.id
          (fun c hc he => hnodup.1 (he ▸ List.mem_map_of_mem _ hc)),
        reconcileStudent_find_self hns]
    · have hne : b.id ≠ a.id := fun he => hnodup.1 (he ▸ List.mem_map_of_mem _ hmem)
      rw [reconcileAux_fst,
        reconcileAux_find_of_mem comp hnodup.2 hmem hns, expectedRow_step_ne hne]

theorem reconcileStudent_filter_sch {comp : Date} {tbl : List Pagamento} {a : Aluno}
    (hsch : a.projeto_social = true)
    (hle : (tbl.filter (isKey a.id comp)).length ≤ 1) :
    ((reconcileStudent comp tbl a).1).filter (isKey a.id comp) = [] := by
  rw [reconcileStudent]
  cases hf : tbl.find? (isKey a.id comp) with
  | some p =>
    simp only [hsch, if_true]
    exact filter_eraseP_self tbl hle
  | none =>
    simp only [hsch, if_true]
    rw [List.filter_eq_nil_iff]
    intro y hy hky
    exact (List.find?_eq_none.mp hf y hy) hky

theorem reconcileAux_filter_sch (comp : Date) :
    ∀ {alunos : List Aluno} {tbl : List Pagamento} {a : Aluno},
      (alunos.map (·.id)).Nodup →
      (tbl.filter (isKey a.id comp)).length ≤ 1 →
      a ∈ alunos → a.projeto_social = true →
      ((reconcileAux comp alunos tbl).1).filter (isKey a.id comp) = []
  | [], _, _, _, _, ha, _ => by cases ha
  | b :: rest, tbl, a, hnodup, hle, ha, hsch => by
    rw [List.map_cons, List.nodup_cons] at hnodup
    rcases List.mem_cons.mp ha with rfl | hmem
    · rw [reconcileAux_fst,
        reconcileAux_filter_ne comp rest _ a.id
          (fun c hc he => hnodup.1 (he ▸ List.mem_map_of_mem _ hc)),
        reconcileStudent_filter_sch hsch hle]
    · have hne : b.id ≠ a.id := fun he => hnodup.1 (he ▸ List.mem_map_of_mem _ hmem)
      rw [reconcileAux_fst]
      exact reconcileAux_filter_sch comp hnodup.2
        (by rw [reconcileStudent_filter_ne hne]; exact hle) hmem hsch

theorem reconcileAux_valor_quantized (comp : Date) :
    ∀ (alunos : List Aluno) (tbl : List Pagamento),
      ∀ p ∈ (reconcileAux comp alunos tbl).2,
        ∃ x : ℚ, p.valor = quantize2 x
  | [], _, _, hp => by cases hp
  | a :: rest, tbl, p, hp => by
    rw [reconcileAux_snd_cons, List.mem_append] at hp
    rcases hp with hp | hp
    · rw [reconcileStudent_snd] at hp
      cases hsch : a.projeto_social
      · rw [hsch] at hp
        simp only [Bool.false_eq_true, if_false, Option.toList_some,
          List.mem_singleton] at hp
        exact ⟨a.valor_mensalidade, by rw [hp, expectedRow_valor]⟩
      · rw [hsch] at hp
        simp at hp
    · exact reconcileAux_valor_quantized comp rest _ p hp

theorem sortAlunos_perm (l : List Aluno) : (sortAlunos l).Perm l :=
  List.perm_insertionSort _ l

theorem sortAlunos_nodup {l : List Aluno} (h : (l.map (·.id)).Nodup) :
    ((sortAlunos l).map (·.id)).Nodup :=
  (List.Perm.nodup_iff (List.Perm.map _ (sortAlunos_perm l))).mpr h

theorem mem_sortAlunos {l : List Aluno} {a : Aluno} : a ∈ sortAlunos l ↔ a ∈ l :=
  (sortAlunos_perm l).mem_iff

theorem expectedRow_of_find_some {comp : Date} {tbl : List Pagamento} {a : Aluno}
    {p : Pagamento} (h : tbl.find? (isKey a.id comp) = some p) :
    expectedRow comp tbl a = { p with valor := quantize2 a.valor_mensalidade } := by
  rw [expectedRow, h]

theorem expectedRow_post (comp : Date) {alunos : List Aluno} {tbl : List Pagamento}
    {a : Aluno} (hnodup : (alunos.map (·.id)).Nodup) (ha : a ∈ alunos)
    (hns : a.projeto_social = false) :
    expectedRow comp (reconcileAux comp alunos tbl).1 a = expectedRow comp tbl a := by
  rw [expectedRow_of_find_some (reconcileAux_find_of_mem comp hnodup ha hns),
    expectedRow_setValor]

/-- C1: Running pagamentos_do_mes_referencia twice in a row for the same
competence-month, with no intervening student edits, returns the same
registros list (same students, competencia, valor, pago flags and order)
and the same resumo as the first run.  The hypothesis is the students
table's primary-key uniqueness. -/
theorem C1_reconciliation_idempotent (db : DB) (M : Date)
    (hids : (db.alunos.map (·.id)).Nodup) :
    (pagamentos_do_mes_referencia (pagamentos_do_mes_referencia db M).1 M).2.1 =
      (pagamentos_do_mes_referencia db M).2.1 ∧
    (pagamentos_do_mes_referencia (pagamentos_do_mes_referencia db M).1 M).2.2 =
      (pagamentos_do_mes_referencia db M).2.2 := by
  have hs := sortAlunos_nodup hids
  have hmain : (reconcileAux M (sortAlunos db.alunos)
      (reconcileAux M (sortAlunos db.alunos) db.pagamentos).1).2 =
      (reconcileAux M (sortAlunos db.alunos) db.pagamentos).2 := by
    rw [reconcileAux_snd M _ _ hs, reconcileAux_snd M _ _ hs]
    apply List.filterMap_congr
    intro a ha
    cases hsch : a.projeto_social
    · simp only [Bool.false_eq_true, if_false]
      rw [expectedRow_post M hs ha hsch]
    · simp
  exact ⟨hmain, congrArg resumoOf hmain⟩

/-- Witness for C1 at a concrete two-student database with stale rows. -/
theorem C1_reconciliation_idempotent_witness :
    (dbC1.alunos.map (·.id)).Nodup ∧
    ((pagamentos_do_mes_referencia (pagamentos_do_mes_referencia dbC1 mesW).1 mesW).2.1 =
        (pagamentos_do_mes_referencia dbC1 mesW).2.1 ∧
      (pagamentos_do_mes_referencia (pagamentos_do_mes_referencia dbC1 mesW).1 mesW).2.2 =
        (pagamentos_do_mes_referencia dbC1 mesW).2.2) :=
  ⟨by decide, C1_reconciliation_idempotent dbC1 mesW (by decide)⟩

theorem regs_filter_id_nil (comp : Date) (tbl : List Pagamento)
    (l : List Aluno) (aid : Nat) (h : ∀ c ∈ l, c.id ≠ aid) :
    (l.filterMap (fun b => if b.projeto_social then none
        else some (expectedRow comp tbl b))).filter
      (fun p => decide (p.aluno_id = aid)) = [] := by
  rw [List.filter_eq_nil_iff]
  intro p hp
  obtain ⟨c, hc, hfc⟩ := List.mem_filterMap.mp hp
  cases hsch : c.projeto_social
  · rw [hsch] at hfc
    simp only [Bool.false_eq_true, if_false, Option.some.injEq] at hfc
    simp [← hfc, expectedRow_aluno_id, h c hc]
  · rw [hsch] at hfc
    simp at hfc

theorem regs_filter_id_one (comp : Date) (tbl : List Pagamento) :
    ∀ {l : List Aluno} {a : Aluno}, (l.map (·.id)).Nodup → a ∈ l →
      a.projeto_social = false →
      ((l.filterMap (fun b => if b.projeto_social then none
          else some (expectedRow comp tbl b))).filter
        (fun p => decide (p.aluno_id = a.id))).length = 1
  | [], a, _, ha, _ => by cases ha
  | b :: l, a, hnodup, ha, hns => by
    rw [List.map_cons, List.nodup_cons] at hnodup
    rcases List.mem_cons.mp ha with rfl | hmem
    · rw [List.filterMap_cons, hns]
      simp only [Bool.false_eq_true, if_false]
      rw [List.filter_cons_of_pos (by simp [expectedRow_aluno_id]),
        regs_filter_id_nil comp tbl l a.id
          (fun c hc he => hnodup.1 (he ▸ List.mem_map_of_mem _ hc))]
      rfl
    · have hne : b.id ≠ a.id := fun he => hnodup.1 (he ▸ List.mem_map_of_mem _ hmem)
      rw [List.filterMap_cons]
      cases hsch : b.projeto_social
      · simp only [Bool.false_eq_true, if_false]
        rw [List.filter_cons_of_neg (by simp [expectedRow_aluno_id, hne])]
        exact regs_filter_id_one comp tbl hnodup.2 hmem hns
      · simp only [if_true]
        exact regs_filter_id_one comp tbl hnodup.2 hmem hns

theorem regs_owner (db : DB) (M : Date) (hids : (db.alunos.map (·.id)).Nodup) :
    ∀ p ∈ (pagamentos_do_mes_referencia db M).2.1,
      ∃ b ∈ db.alunos, b.projeto_social = false ∧ p.aluno_id = b.id := by
  have hs := sortAlunos_nodup hids
  intro p hp
  rw [show (pagamentos_do_mes_referencia db M).2.1 =
      (reconcileAux M (sortAlunos db.alunos) db.pagamentos).2 from rfl,
    reconcileAux_snd M _ _ hs] at hp
  obtain ⟨b, hb, hfb⟩ := List.mem_filterMap.mp hp
  cases hsch : b.projeto_social
  · rw [hsch] at hfb
    simp only [Bool.false_eq_true, if_false, Option.some.injEq] at hfb
    exact ⟨b, mem_sortAlunos.mp hb, hsch, by rw [← hfb, expectedRow_aluno_id]⟩
  · rw [hsch] at hfb
    simp at hfb

/-- C2 counterexample: a database whose only student is inactive (status
"inativo") and not on scholarship still yields a payment row — the claim
says inactive students get none. -/
theorem C2_counterexample :
    (∀ a ∈ dbC2.alunos, a.status ≠ "ativo") ∧
    (pagamentos_do_mes_referencia dbC2 mesW).2.1.length = 1 := by decide

/-- C2 (amended): after reconciliation for M, the returned row set has
exactly one row per non-scholarship student regardless of status
(the code never filters on status), every returned row belongs to a
non-scholarship student, and no row belongs to a scholarship student. -/
theorem C2_rows_per_student (db : DB) (M : Date)
    (hids : (db.alunos.map (·.id)).Nodup) :
    (∀ a ∈ db.alunos, a.projeto_social = false →
      (((pagamentos_do_mes_referencia db M).2.1).filter
        (fun p => decide (p.aluno_id = a.id))).length = 1) ∧
    (∀ p ∈ (pagamentos_do_mes_referencia db M).2.1,
      ∃ b ∈ db.alunos, b.projeto_social = false ∧ p.aluno_id = b.id) ∧
    (∀ a ∈ db.alunos, a.projeto_social = true →
      ∀ p ∈ (pagamentos_do_mes_referencia db M).2.1, p.aluno_id ≠ a.id) := by
  have hs := sortAlunos_nodup hids
  refine ⟨?_, regs_owner db M hids, ?_⟩
  · intro a ha hns
    rw [show (pagamentos_do_mes_referencia db M).2.1 =
        (reconcileAux M (sortAlunos db.alunos) db.pagamentos).2 from rfl,
      reconcileAux_snd M _ _ hs]
    exact regs_filter_id_one M db.pagamentos hs (mem_sortAlunos.mpr ha) hns
  · intro a ha hsch p hp heq
    obtain ⟨b, hb, hbs, hid⟩ := regs_owner db M hids p hp
    have hba : b = a := List.inj_on_of_nodup_map hids hb ha (hid ▸ heq)
    rw [hba, hsch] at hbs
    cases hbs

/-- Witness for the amended C2 at a database with an active and an
inactive student. -/
theorem C2_rows_per_student_witness :
    (dbC2a.alunos.map (·.id)).Nodup ∧
    ((∀ a ∈ dbC2a.alunos, a.projeto_social = false →
      (((pagamentos_do_mes_referencia dbC2a mesW).2.1).filter
        (fun p => decide (p.aluno_id = a.id))).length = 1) ∧
    (∀ p ∈ (pagamentos_do_mes_referencia dbC2a mesW).2.1,
      ∃ b ∈ dbC2a.alunos, b.projeto_social = false ∧ p.aluno_id = b.id) ∧
    (∀ a ∈ dbC2a.alunos, a.projeto_social = true →
      ∀ p ∈ (pagamentos_do_mes_referencia dbC2a mesW).2.1, p.aluno_id ≠ a.id)) :=
  ⟨by decide, C2_rows_per_student dbC2a mesW (by decide)⟩

/-- C3: after reconciliation for M, a scholarship student has no payment
row for M in the table (a pre-existing one is deleted) and appears in no
returned row.  Hypotheses: primary-key uniqueness of the student table and
the unique constraint on (aluno_id, competencia). -/
theorem C3_scholarship_no_rows (db : DB) (M : Date)
    (hids : (db.alunos.map (·.id)).Nodup)
    (hkeys : db.pagamentos.Pairwise
      (fun p q => ¬(p.aluno_id = q.aluno_id ∧ p.competencia = q.competencia)))
    (a : Aluno) (ha : a ∈ db.alunos) (hsch : a.projeto_social = true) :
    (∀ p ∈ (pagamentos_do_mes_referencia db M).1.pagamentos,
      ¬(p.aluno_id = a.id ∧ p.competencia = M)) ∧
    (∀ p ∈ (pagamentos_do_mes_referencia db M).2.1, p.aluno_id ≠ a.id) := by
  have hs := sortAlunos_nodup hids
  constructor
  · have hle : (db.pagamentos.filter (isKey a.id M)).length ≤ 1 :=
      length_filter_le_one_of_pairwise hkeys (by
        intro x y hx hy hR
        rw [isKey_iff] at hx hy
        exact hR ⟨hx.1.trans hy.1.symm, hx.2.trans hy.2.symm⟩)
    have hnil := @reconcileAux_filter_sch M (sortAlunos db.alunos) db.pagamentos a
      hs hle (mem_sortAlunos.mpr ha) hsch
    intro p hp hkey
    have hmem : p ∈ ((reconcileAux M (sortAlunos db.alunos) db.pagamentos).1).filter
        (isKey a.id M) :=
      List.mem_filter.mpr ⟨hp, isKey_iff.mpr hkey⟩
    rw [hnil] at hmem
    cases hmem
  · intro p hp heq
    obtain ⟨b, hb, hbs, hid⟩ := regs_owner db M hids p hp
    have hba : b = a := List.inj_on_of_nodup_map hids hb ha (hid ▸ heq)
    rw [hba, hsch] at hbs
    cases hbs

/-- Witness for C3 at a scholarship student with a stale paid row. -/
theorem C3_scholarship_no_rows_witness :
    ((dbC3.alunos.map (·.id)).Nodup ∧
      dbC3.pagamentos.Pairwise
        (fun p q => ¬(p.aluno_id = q.aluno_id ∧ p.competencia = q.competencia)) ∧
      alunoC3 ∈ dbC3.alunos ∧ alunoC3.projeto_social = true) ∧
    ((∀ p ∈ (pagamentos_do_mes_referencia dbC3 mesW).1.pagamentos,
      ¬(p.aluno_id = alunoC3.id ∧ p.competencia = mesW)) ∧
    (∀ p ∈ (pagamentos_do_mes_referencia dbC3 mesW).2.1, p.aluno_id ≠ alunoC3.id)) :=
  ⟨⟨by decide, by decide, by decide, by decide⟩,
    C3_scholarship_no_rows dbC3 mesW (by decide) (by decide) alunoC3 (by decide) (by decide)⟩

/-- C4: for a non-scholarship student, reconciliation fetches-or-creates
the (student, M) row and the resulting row — both the one persisted in the
table and the one returned — is exactly the pre-existing row with only its
valor overwritten by the 2-dp quantization of the student's current fee
(pago, data_pagamento, observacao untouched), or a fresh unpaid row when
none existed. -/
theorem C4_fetch_or_create_valor (db : DB) (M : Date)
    (hids : (db.alunos.map (·.id)).Nodup)
    (a : Aluno) (ha : a ∈ db.alunos) (hns : a.projeto_social = false) :
    (pagamentos_do_mes_referencia db M).1.pagamentos.find? (isKey a.id M) =
      some (match db.pagamentos.find? (isKey a.id M) with
        | some p => { p with valor := quantize2 a.valor_mensalidade }
        | none => { mkPagamento a M with valor := quantize2 a.valor_mensalidade }) ∧
    (match db.pagamentos.find? (isKey a.id M) with
      | some p => { p with valor := quantize2 a.valor_mensalidade }
      | none => { mkPagamento a M with valor := quantize2 a.valor_mensalidade }) ∈
      (pagamentos_do_mes_referencia db M).2.1 := by
  have hs := sortAlunos_nodup hids
  have hmatch : (match db.pagamentos.find? (isKey a.id M) with
      | some p => { p with valor := quantize2 a.valor_mensalidade }
      | none => { mkPagamento a M with valor := quantize2 a.valor_mensalidade }) =
      expectedRow M db.pagamentos a := by
    rw [expectedRow]
  rw [hmatch]
  constructor
  · exact reconcileAux_find_of_mem M hs (mem_sortAlunos.mpr ha) hns
  · show expectedRow M db.pagamentos a ∈
      (reconcileAux M (sortAlunos db.alunos) db.pagamentos).2
    rw [reconcileAux_snd M _ _ hs, List.mem_filterMap]
    exact ⟨a, mem_sortAlunos.mpr ha, by simp [hns]⟩

/-- Witness for C4 at a student whose row is already paid at old value 120
while the current fee is 150. -/
theorem C4_fetch_or_create_valor_witness :
    ((dbC4.alunos.map (·.id)).Nodup ∧ alunoC4 ∈ dbC4.alunos ∧
      alunoC4.projeto_social = false) ∧
    ((pagamentos_do_mes_referencia dbC4 mesW).1.pagamentos.find?
        (isKey alunoC4.id mesW) =
      some (match dbC4.pagamentos.find? (isKey alunoC4.id mesW) with
        | some p => { p with valor := quantize2 alunoC4.valor_mensalidade }
        | none => { mkPagamento alunoC4 mesW with
                      valor := quantize2 alunoC4.valor_mensalidade }) ∧
    (match dbC4.pagamentos.find? (isKey alunoC4.id mesW) with
      | some p => { p with valor := quantize2 alunoC4.valor_mensalidade }
      | none => { mkPagamento alunoC4 mesW with
                    valor := quantize2 alunoC4.valor_mensalidade }) ∈
      (pagamentos_do_mes_referencia dbC4 mesW).2.1) :=
  ⟨⟨by decide, by decide, by decide⟩,
    C4_fetch_or_create_valor dbC4 mesW (by decide) alunoC4 (by decide) (by decide)⟩

set_option maxRecDepth 100000 in
/-- C5 counterexample: on a reconciliation returning 80 rows of which 23
are paid, the exact ratio (pagos / count) * 100 is 28.75, whose half-even
rounding to one decimal is 28.8; but the program evaluates
round((pagos / len(registros)) * 100, 1) in binary64 floating point, where
(23 / 80) * 100 is the double 28.749999999999996..., and round returns
28.7 — so percentual is not the ratio rounded to one decimal. -/
theorem C5_counterexample :
    (pagamentos_do_mes_referencia dbC5 mesW).2.2.pagos = 23 ∧
    ((pagamentos_do_mes_referencia dbC5 mesW).2.1).length = 80 ∧
    (pagamentos_do_mes_referencia dbC5 mesW).2.2.percentual ≠
      round1 (((pagamentos_do_mes_referencia dbC5 mesW).2.2.pagos : ℚ) /
        (((pagamentos_do_mes_referencia dbC5 mesW).2.1).length : ℚ) * 100) := by
  have hp : (pagamentos_do_mes_referencia dbC5 mesW).2.2.pagos = 23 := by decide
  have hl : ((pagamentos_do_mes_referencia dbC5 mesW).2.1).length = 80 := by decide
  refine ⟨hp, hl, ?_⟩
  rw [hp, hl]
  have hx : (((23 : ℕ) : ℚ)) / (((80 : ℕ) : ℚ)) * 100 = mkRat 115 4 := by
    rw [Rat.mkRat_eq_div]
    norm_num
  rw [hx]
  have hpct : (pagamentos_do_mes_referencia dbC5 mesW).2.2.percentual =
      pyRound1 (floatMul100 (floatDivNat 23 80)) := by decide
  rw [hpct]
  decide

/-- C5 (amended): the summary identities: valor_pendente = valor_previsto −
valor_pago exactly; valor_previsto and valor_pago are the plain sums of the
returned rows' values (all already 2-dp quantized); pagos + pendentes is
the number of returned rows; percentual is 0 on an empty row set and
otherwise round((pagos / count) * 100, 1) evaluated in binary64 floating
point — which can differ from the exact decimal rounding of the ratio, see
the counterexample above. -/
theorem C5_summary_identities (db : DB) (M : Date) :
    (pagamentos_do_mes_referencia db M).2.2.valor_previsto =
      (((pagamentos_do_mes_referencia db M).2.1).map (fun r => r.valor)).sum ∧
    (pagamentos_do_mes_referencia db M).2.2.valor_pago =
      ((((pagamentos_do_mes_referencia db M).2.1).filter (fun r => r.pago)).map
        (fun r => r.valor)).sum ∧
    (pagamentos_do_mes_referencia db M).2.2.valor_pendente =
      (pagamentos_do_mes_referencia db M).2.2.valor_previsto -
        (pagamentos_do_mes_referencia db M).2.2.valor_pago ∧
    (pagamentos_do_mes_referencia db M).2.2.pagos +
        (pagamentos_do_mes_referencia db M).2.2.pendentes =
      ((pagamentos_do_mes_referencia db M).2.1).length ∧
    (pagamentos_do_mes_referencia db M).2.2.percentual =
      (if ((pagamentos_do_mes_referencia db M).2.1).length = 0 then 0
       else pyRound1 (floatMul100 (floatDivNat
         (pagamentos_do_mes_referencia db M).2.2.pagos
         ((pagamentos_do_mes_referencia db M).2.1).length))) := by
  have hq : ∀ p ∈ (pagamentos_do_mes_referencia db M).2.1,
      quantize2 p.valor = p.valor := by
    intro p hp
    obtain ⟨x, hx⟩ := reconcileAux_valor_quantized M _ _ p hp
    rw [hx, quantize2_idem]
  refine ⟨?_, ?_, rfl, ?_, rfl⟩
  · show (((pagamentos_do_mes_referencia db M).2.1).map
        (fun r => quantize2 r.valor)).sum = _
    rw [List.map_congr_left (fun p hp => hq p hp)]
  · show ((((pagamentos_do_mes_referencia db M).2.1).filter (fun r => r.pago)).map
        (fun r => quantize2 r.valor)).sum = _
    rw [List.map_congr_left (fun p hp => hq p (List.mem_of_mem_filter hp))]
  · show (((pagamentos_do_mes_referencia db M).2.1).filter (fun r => r.pago)).length +
        (((pagamentos_do_mes_referencia db M).2.1).length -
          (((pagamentos_do_mes_referencia db M).2.1).filter (fun r => r.pago)).length) =
      ((pagamentos_do_mes_referencia db M).2.1).length
    have := List.length_filter_le (fun r => r.pago) (pagamentos_do_mes_referencia db M).2.1
    omega

/-- C6: calcular_vencimento returns the date in the competence month whose
day is min(configured due-day, last day of that month); in particular
due-day 10 on the 30-day month 2024-04 yields day 10, and due-day 31 on
the 28-day month 2023-02 clamps to day 28. -/
theorem C6_due_date (C : Date) (d : Nat) (hm : 1 ≤ C.month ∧ C.month ≤ 12)
    (hd : 1 ≤ d) :
    calcular_vencimento C d =
      .ok ⟨C.year, C.month, min d (daysInMonth C.year C.month)⟩ ∧
    calcular_vencimento ⟨2024, 4, 1⟩ 10 = .ok ⟨2024, 4, 10⟩ ∧
    calcular_vencimento ⟨2023, 2, 1⟩ 31 = .ok ⟨2023, 2, 28⟩ := by
  refine ⟨?_, by decide, by decide⟩
  obtain ⟨h1, h2⟩ := hm
  have hmd : 28 ≤ mdays C.month := by
    set m := C.month with hmeq
    interval_cases m <;> simp [mdays]
  have hdim : 1 ≤ daysInMonth C.year C.month := by
    rw [daysInMonth]
    omega
  simp only [calcular_vencimento]
  rw [if_neg (by omega), if_neg (by omega)]

/-- Witness for C6: the general clause applied at the April 2024 month. -/
theorem C6_due_date_witness :
    ((1 ≤ (⟨2024, 4, 1⟩ : Date).month ∧ (⟨2024, 4, 1⟩ : Date).month ≤ 12) ∧ 1 ≤ 10) ∧
    (calcular_vencimento ⟨2024, 4, 1⟩ 10 =
        .ok ⟨2024, 4, min 10 (daysInMonth 2024 4)⟩ ∧
      calcular_vencimento ⟨2024, 4, 1⟩ 10 = .ok ⟨2024, 4, 10⟩ ∧
      calcular_vencimento ⟨2023, 2, 1⟩ 31 = .ok ⟨2023, 2, 28⟩) :=
  ⟨⟨by decide, by decide⟩, C6_due_date ⟨2024, 4, 1⟩ 10 (by decide) (by decide)⟩

/-! ## Lemmas: attendance recording -/

theorem filter_replaceFirst_self {α : Type} {f : α → Bool} {x' : α}
    (hx : f x' = true) :
    ∀ {l : List α} {p : α}, l.find? f = some p → (l.filter f).length ≤ 1 →
      (replaceFirst f x' l).filter f = [x']
  | [], p, h, _ => by cases h
  | x :: xs, p, h, hlen => by
    cases hfx : f x with
    | true =>
      rw [List.filter_cons_of_pos hfx] at hlen
      simp only [replaceFirst, hfx, if_true]
      rw [List.filter_cons_of_pos hx]
      cases hfe : xs.filter f with
      | nil => rfl
      | cons y ys => rw [hfe] at hlen; simp at hlen
    | false =>
      rw [List.find?_cons_of_neg _ (by simp [hfx])] at h
      rw [List.filter_cons_of_neg (by simp [hfx])] at hlen
      simp only [replaceFirst, hfx, Bool.false_eq_true, if_false]
      rw [List.filter_cons_of_neg (by simp [hfx])]
      exact filter_replaceFirst_self hx h hlen

theorem isPKey_iff {aid : Nat} {d : Date} {p : Presenca} :
    isPKey aid d p = true ↔ p.aluno_id = aid ∧ p.data = d := by
  simp [isPKey]

theorem isPKey_neg_of_ne {bid aid : Nat} {d : Date} (h : bid ≠ aid) :
    ∀ y : Presenca, isPKey bid d y = true → isPKey aid d y = false := by
  intro y hy
  rw [isPKey_iff] at hy
  simp [isPKey, hy.1, h]

theorem expectedPres_aluno_id (turmaId : Nat) (d : Date) (ids : List Nat)
    (tbl : List Presenca) (a : Aluno) :
    (expectedPres turmaId d ids tbl a).aluno_id = a.id := by
  rw [expectedPres]
  cases hf : tbl.find? (isPKey a.id d) with
  | some p => exact (isPKey_iff.mp (List.find?_some hf)).1
  | none => rfl

theorem expectedPres_data (turmaId : Nat) (d : Date) (ids : List Nat)
    (tbl : List Presenca) (a : Aluno) :
    (expectedPres turmaId d ids tbl a).data = d := by
  rw [expectedPres]
  cases hf : tbl.find? (isPKey a.id d) with
  | some p => exact (isPKey_iff.mp (List.find?_some hf)).2
  | none => rfl

theorem expectedPres_presente (turmaId : Nat) (d : Date) (ids : List Nat)
    (tbl : List Presenca) (a : Aluno) :
    (expectedPres turmaId d ids tbl a).presente = decide (a.id ∈ ids) := by
  rw [expectedPres]
  cases tbl.find? (isPKey a.id d) <;> rfl

theorem isPKey_expectedPres (turmaId : Nat) (d : Date) (ids : List Nat)
    (tbl : List Presenca) (a : Aluno) :
    isPKey a.id d (expectedPres turmaId d ids tbl a) = true :=
  isPKey_iff.mpr ⟨expectedPres_aluno_id turmaId d ids tbl a,
    expectedPres_data turmaId d ids tbl a⟩

theorem isPKey_setPres {aid : Nat} {d : Date} {p : Presenca} {b : Bool} {t : Nat} :
    isPKey aid d { p with presente := b, turma_id := t } = isPKey aid d p := by
  simp [isPKey]

theorem presencaStep_find_ne {turmaId : Nat} {d : Date} {ids : List Nat}
    {tbl : List Presenca} {b : Aluno} {aid : Nat} (h : b.id ≠ aid) :
    (presencaStep turmaId d ids tbl b).find? (isPKey aid d) =
      tbl.find? (isPKey aid d) := by
  rw [presencaStep]
  cases hf : tbl.find? (isPKey b.id d) with
  | some p =>
    exact find?_replaceFirst_of_neg (isPKey_neg_of_ne h)
      (by rw [isPKey_setPres]; exact isPKey_neg_of_ne h p (List.find?_some hf)) tbl
  | none =>
    rw [List.find?_append]
    have : List.find? (isPKey aid d)
        [{ aluno_id := b.id, turma_id := turmaId, data := d,
           presente := decide (b.id ∈ ids) }] = none := by
      simp [List.find?, isPKey, h]
    rw [this, Option.or_none]

theorem presencaStep_filter_ne {turmaId : Nat} {d : Date} {ids : List Nat}
    {tbl : List Presenca} {b : Aluno} {aid : Nat} (h : b.id ≠ aid) :
    (presencaStep turmaId d ids tbl b).filter (isPKey aid d) =
      tbl.filter (isPKey aid d) := by
  rw [presencaStep]
  cases hf : tbl.find? (isPKey b.id d) with
  | some p =>
    exact filter_replaceFirst_of_neg (isPKey_neg_of_ne h)
      (by rw [isPKey_setPres]; exact isPKey_neg_of_ne h p (List.find?_some hf)) tbl
  | none =>
    rw [List.filter_append]
    have : List.filter (isPKey aid d)
        [{ aluno_id := b.id, turma_id := turmaId, data := d,
           presente := decide (b.id ∈ ids) }] = [] := by
      simp [List.filter, isPKey, h]
    rw [this, List.append_nil]

theorem presencaStep_filter_self {turmaId : Nat} {d : Date} {ids : List Nat}
    {tbl : List Presenca} {a : Aluno}
    (hle : (tbl.filter (isPKey a.id d)).length ≤ 1) :
    (presencaStep turmaId d ids tbl a).filter (isPKey a.id d) =
      [expectedPres turmaId d ids tbl a] := by
  rw [presencaStep, expectedPres]
  cases hf : tbl.find? (isPKey a.id d) with
  | some p =>
    exact filter_replaceFirst_self (by rw [isPKey_setPres]; exact List.find?_some hf)
      hf hle
  | none =>
    rw [List.filter_append]
    rw [show tbl.filter (isPKey a.id d) = [] from
      List.filter_eq_nil_iff.mpr (fun y hy hky => (List.find?_eq_none.mp hf y hy) hky)]
    rw [List.nil_append]
    rw [List.filter_cons_of_pos (by simp [isPKey])]
    rfl

theorem expectedPres_step_ne {turmaId turmaId' : Nat} {d : Date} {ids ids' : List Nat}
    {tbl : List Presenca} {b a : Aluno} (h : b.id ≠ a.id) :
    expectedPres turmaId d ids (presencaStep turmaId' d ids' tbl b) a =
      expectedPres turmaId d ids tbl a := by
  rw [expectedPres, expectedPres, presencaStep_find_ne h]

theorem presencasAux_cons (turmaId : Nat) (d : Date) (ids : List Nat)
    (a : Aluno) (rest : List Aluno) (tbl : List Presenca) :
    presencasAux turmaId d ids (a :: rest) tbl =
      presencasAux turmaId d ids rest (presencaStep turmaId d ids tbl a) := rfl

theorem presencasAux_find_ne (turmaId : Nat) (d : Date) (ids : List Nat) :
    ∀ (alunos : List Aluno) (tbl : List Presenca) (aid : Nat),
      (∀ b ∈ alunos, b.id ≠ aid) →
      (presencasAux turmaId d ids alunos tbl).find? (isPKey aid d) =
        tbl.find? (isPKey aid d)
  | [], _, _, _ => rfl
  | a :: rest, tbl, aid, h => by
    rw [presencasAux_cons,
      presencasAux_find_ne turmaId d ids rest _ aid
        (fun b hb => h b (List.mem_cons_of_mem a hb)),
      presencaStep_find_ne (h a (List.mem_cons_self a rest))]

theorem presencasAux_filter_ne (turmaId : Nat) (d : Date) (ids : List Nat) :
    ∀ (alunos : List Aluno) (tbl : List Presenca) (aid : Nat),
      (∀ b ∈ alunos, b.id ≠ aid) →
      (presencasAux turmaId d ids alunos tbl).filter (isPKey aid d) =
        tbl.filter (isPKey aid d)
  | [], _, _, _ => rfl
  | a :: rest, tbl, aid, h => by
    rw [presencasAux_cons,
      presencasAux_filter_ne turmaId d ids rest _ aid
        (fun b hb => h b (List.mem_cons_of_mem a hb)),
      presencaStep_filter_ne (h a (List.mem_cons_self a rest))]

theorem presencasAux_filter_of_mem (turmaId : Nat) (d : Date) (ids : List Nat) :
    ∀ {alunos : List Aluno} {tbl : List Presenca} {a : Aluno},
      (alunos.map (·.id)).Nodup →
      (tbl.filter (isPKey a.id d)).length ≤ 1 →
      a ∈ alunos →
      (presencasAux turmaId d ids alunos tbl).filter (isPKey a.id d) =
        [expectedPres turmaId d ids tbl a]
  | [], _, _, _, _, ha => by cases ha
  | b :: rest, tbl, a, hnodup, hle, ha => by
    rw [List.map_cons, List.nodup_cons] at hnodup
    rcases List.mem_cons.mp ha with rfl | hmem
    · rw [presencasAux_cons,
        presencasAux_filter_ne turmaId d ids rest _ a.id
          (fun c hc he => hnodup.1 (he ▸ List.mem_map_of_mem _ hc)),
        presencaStep_filter_self hle]
    · have hne : b.id ≠ a.id := fun he => hnodup.1 (he ▸ List.mem_map_of_mem _ hmem)
      rw [presencasAux_cons,
        presencasAux_filter_of_mem turmaId d ids hnodup.2
          (by rw [presencaStep_filter_ne hne]; exact hle) hmem,
        expectedPres_step_ne hne]

theorem presencaStep_length_of_found {turmaId : Nat} {d : Date} {ids : List Nat}
    {tbl : List Presenca} {a : Aluno}
    (h : (tbl.find? (isPKey a.id d)).isSome) :
    (presencaStep turmaId d ids tbl a).length = tbl.length := by
  rw [presencaStep]
  cases hf : tbl.find? (isPKey a.id d) with
  | some p => exact length_replaceFirst _ _ tbl
  | none => rw [hf] at h; cases h

theorem presencasAux_length_of_found (turmaId : Nat) (d : Date) (ids : List Nat) :
    ∀ (alunos : List Aluno) (tbl : List Presenca),
      (alunos.map (·.id)).Nodup →
      (∀ a ∈ alunos, (tbl.find? (isPKey a.id d)).isSome) →
      (presencasAux turmaId d ids alunos tbl).length = tbl.length
  | [], _, _, _ => rfl
  | a :: rest, tbl, hnodup, hfound => by
    rw [List.map_cons, List.nodup_cons] at hnodup
    rw [presencasAux_cons,
      presencasAux_length_of_found turmaId d ids rest _ hnodup.2 (by
        intro b hb
        have hne : a.id ≠ b.id := fun he => hnodup.1 (he ▸ List.mem_map_of_mem _ hb)
        rw [presencaStep_find_ne hne]
        exact hfound b (List.mem_cons_of_mem a hb)),
      presencaStep_length_of_found (hfound a (List.mem_cons_self a rest))]

/-- C7: submitting attendance for a class on date D leaves exactly one
Presenca row per student of the class keyed by (student, D), whose
presente flag is true iff the student's id is in the submitted set (so
absent students get an explicit presente = false row); and a repeated
submission for the same class and date — with any submitted set — adds no
rows.  Hypotheses: distinct student ids and the (data, aluno_id) unique
constraint on the pre-state. -/
theorem C7_attendance_upsert (turma_alunos : List Aluno) (turmaId : Nat) (d : Date)
    (presentesIds presentesIds2 : List Nat) (tbl : List Presenca)
    (hids : (turma_alunos.map (·.id)).Nodup)
    (hkeys : tbl.Pairwise (fun p q => ¬(p.aluno_id = q.aluno_id ∧ p.data = q.data))) :
    (∀ a ∈ turma_alunos,
      ((presencasAux turmaId d presentesIds turma_alunos tbl).filter
        (isPKey a.id d)).length = 1 ∧
      ∀ p ∈ presencasAux turmaId d presentesIds turma_alunos tbl,
        isPKey a.id d p = true → p.presente = decide (a.id ∈ presentesIds)) ∧
    (presencasAux turmaId d presentesIds2 turma_alunos
        (presencasAux turmaId d presentesIds turma_alunos tbl)).length =
      (presencasAux turmaId d presentesIds turma_alunos tbl).length := by
  have hle : ∀ a : Aluno, (tbl.filter (isPKey a.id d)).length ≤ 1 := by
    intro a
    refine length_filter_le_one_of_pairwise hkeys ?_
    intro x y hx hy hR
    rw [isPKey_iff] at hx hy
    exact hR ⟨hx.1.trans hy.1.symm, hx.2.trans hy.2.symm⟩
  have hfil : ∀ a ∈ turma_alunos,
      (presencasAux turmaId d presentesIds turma_alunos tbl).filter (isPKey a.id d) =
        [expectedPres turmaId d presentesIds tbl a] := by
    intro a ha
    exact presencasAux_filter_of_mem turmaId d presentesIds hids (hle a) ha
  constructor
  · intro a ha
    constructor
    · rw [hfil a ha]
      rfl
    · intro p hp hkey
      have hmem : p ∈ (presencasAux turmaId d presentesIds turma_alunos tbl).filter
          (isPKey a.id d) := List.mem_filter.mpr ⟨hp, hkey⟩
      rw [hfil a ha, List.mem_singleton] at hmem
      rw [hmem, expectedPres_presente]
  · refine presencasAux_length_of_found turmaId d presentesIds2 turma_alunos _ hids ?_
    intro a ha
    have h1 : (presencasAux turmaId d presentesIds turma_alunos tbl).filter
        (isPKey a.id d) = [expectedPres turmaId d presentesIds tbl a] := hfil a ha
    cases hf : (presencasAux turmaId d presentesIds turma_alunos tbl).find?
        (isPKey a.id d) with
    | some p => rfl
    | none =>
      exfalso
      have hmem : expectedPres turmaId d presentesIds tbl a ∈
          (presencasAux turmaId d presentesIds turma_alunos tbl).filter
            (isPKey a.id d) := by
        rw [h1]
        exact List.mem_singleton_self _
      exact (List.find?_eq_none.mp hf _ (List.mem_of_mem_filter hmem))
        (isPKey_expectedPres turmaId d presentesIds tbl a)

/-- Witness for C7 at a two-student class, one stale row from another
class, submitted set containing only the first student. -/
theorem C7_attendance_upsert_witness :
    ((alunosC7.map (·.id)).Nodup ∧
      presTblC7.Pairwise (fun p q => ¬(p.aluno_id = q.aluno_id ∧ p.data = q.data))) ∧
    ((∀ a ∈ alunosC7,
      ((presencasAux 7 ⟨2024, 3, 4⟩ [1] alunosC7 presTblC7).filter
        (isPKey a.id ⟨2024, 3, 4⟩)).length = 1 ∧
      ∀ p ∈ presencasAux 7 ⟨2024, 3, 4⟩ [1] alunosC7 presTblC7,
        isPKey a.id ⟨2024, 3, 4⟩ p = true → p.presente = decide (a.id ∈ [1])) ∧
    (presencasAux 7 ⟨2024, 3, 4⟩ [2] alunosC7
        (presencasAux 7 ⟨2024, 3, 4⟩ [1] alunosC7 presTblC7)).length =
      (presencasAux 7 ⟨2024, 3, 4⟩ [1] alunosC7 presTblC7).length) :=
  ⟨⟨by decide, by decide⟩,
    C7_attendance_upsert alunosC7 7 ⟨2024, 3, 4⟩ [1] [2] presTblC7
      (by decide) (by decide)⟩

/-! ## Lemmas: user management -/

theorem find?_id_of_mem :
    ∀ {users : List User} {u : User}, (users.map (·.id)).Nodup → u ∈ users →
      users.find? (fun x => decide (x.id = u.id)) = some u
  | [], _, _, hu => by cases hu
  | v :: vs, u, hids, hu => by
    rw [List.map_cons, List.nodup_cons] at hids
    rcases List.mem_cons.mp hu with rfl | hmem
    · rw [List.find?_cons_of_pos _ (by simp)]
    · have hne : v.id ≠ u.id := fun he => hids.1 (he ▸ List.mem_map_of_mem _ hmem)
      rw [List.find?_cons_of_neg _ (by simp [hne]), find?_id_of_mem hids.2 hmem]

theorem admin_unique {users : List User} {cu t : User}
    (hone : adminCount users = 1) (hcu : cu ∈ users) (hcua : cu.role = "admin")
    (ht : t ∈ users) (hta : t.role = "admin") : cu = t := by
  obtain ⟨x, hx⟩ := List.length_eq_one.mp hone
  have h1 : cu ∈ users.filter (fun u => decide (u.role = "admin")) :=
    List.mem_filter.mpr ⟨hcu, by simp [hcua]⟩
  have h2 : t ∈ users.filter (fun u => decide (u.role = "admin")) :=
    List.mem_filter.mpr ⟨ht, by simp [hta]⟩
  rw [hx, List.mem_singleton] at h1 h2
  rw [h1, h2]

theorem delete_user_found {users : List User} {cid : Nat} {t : User}
    (hfind : users.find? (fun x => decide (x.id = t.id)) = some t) :
    delete_user users cid t.id =
      (if pyLower t.username = "admin" then some (users, false)
       else if t.id = cid then some (users, false)
       else if t.role = "admin" ∧ adminCount users = 1 then some (users, false)
       else some (users.eraseP (fun u => decide (u.id = t.id)), true)) := by
  rw [delete_user, hfind]

theorem update_role_found {users : List User} {cid : Nat} {t : User} {role : String}
    (hfind : users.find? (fun x => decide (x.id = t.id)) = some t) :
    update_role users cid t.id role =
      (if ¬ role ∈ ROLE_CHOICES then some (users, false)
       else if t.id = cid ∧ role ≠ "admin" ∧ adminCount users = 1 then
         some (users, false)
       else some (replaceFirst (fun u => decide (u.id = t.id))
         { t with role := role } users, true)) := by
  rw [update_role, hfind]

/-- C8: when exactly one admin account exists and the authenticated user is
an admin stored in the table (the only way to reach manage_users), a delete
of that sole admin and a role change of it to any non-admin role are both
rejected with the user table unchanged; moreover, on any user table, the
authenticated account can never delete itself and an account whose
lowercased username is "admin" can never be deleted. -/
theorem C8_last_admin_protection (users : List User) (cu t : User)
    (hids : (users.map (·.id)).Nodup)
    (hcu : cu ∈ users) (hcua : cu.role = "admin")
    (ht : t ∈ users) (hta : t.role = "admin")
    (hone : adminCount users = 1) :
    delete_user users cu.id t.id = some (users, false) ∧
    (∀ role : String, role ≠ "admin" →
      update_role users cu.id t.id role = some (users, false)) ∧
    (∀ (users' : List User) (c : User), (users'.map (·.id)).Nodup → c ∈ users' →
      delete_user users' c.id c.id = some (users', false)) ∧
    (∀ (users' : List User) (cid : Nat) (u : User),
      users'.find? (fun x => decide (x.id = u.id)) = some u →
      pyLower u.username = "admin" →
      delete_user users' cid u.id = some (users', false)) := by
  have hct : cu = t := admin_unique hone hcu hcua ht hta
  refine ⟨?_, ?_, ?_, ?_⟩
  · rw [delete_user_found (find?_id_of_mem hids ht)]
    by_cases hname : pyLower t.username = "admin"
    · rw [if_pos hname]
    · rw [if_neg hname, if_pos (congrArg (·.id) hct).symm]
  · intro role hrole
    rw [update_role_found (find?_id_of_mem hids ht)]
    by_cases hchoice : role ∈ ROLE_CHOICES
    · rw [if_neg (not_not_intro hchoice),
        if_pos ⟨(congrArg (·.id) hct).symm, hrole, hone⟩]
    · rw [if_pos hchoice]
  · intro users' c hids' hc
    rw [delete_user_found (find?_id_of_mem hids' hc)]
    by_cases hname : pyLower c.username = "admin"
    · rw [if_pos hname]
    · rw [if_neg hname, if_pos rfl]
  · intro users' cid u hfind hname
    rw [delete_user_found hfind, if_pos hname]

/-- Witness for C8 at a table with the default admin and one manager. -/
theorem C8_last_admin_protection_witness :
    ((usersC8.map (·.id)).Nodup ∧ adminC8 ∈ usersC8 ∧ adminC8.role = "admin" ∧
      adminCount usersC8 = 1) ∧
    (delete_user usersC8 adminC8.id adminC8.id = some (usersC8, false) ∧
    (∀ role : String, role ≠ "admin" →
      update_role usersC8 adminC8.id adminC8.id role = some (usersC8, false)) ∧
    (∀ (users' : List User) (c : User), (users'.map (·.id)).Nodup → c ∈ users' →
      delete_user users' c.id c.id = some (users', false)) ∧
    (∀ (users' : List User) (cid : Nat) (u : User),
      users'.find? (fun x => decide (x.id = u.id)) = some u →
      pyLower u.username = "admin" →
      delete_user users' cid u.id = some (users', false))) :=
  ⟨⟨by decide, by decide, by decide, by decide⟩,
    C8_last_admin_protection usersC8 adminC8 adminC8 (by decide) (by decide)
      (by decide) (by decide) (by decide) (by decide)⟩

/-! ## Lemmas: parse_decimal -/

theorem roundHalfEven_big : roundHalfEven ((10 : ℚ) ^ 30 * 100) = 10 ^ 32 := by
  have h10 : ((10 : ℚ) ^ 30 * 100) = ((10 ^ 32 : ℤ) : ℚ) := by
    push_cast
    ring
  rw [h10, roundHalfEven_intCast]

/-- C9 counterexample: parse_decimal raises (InvalidOperation) on the
integer input 10^30 — the numeric branch quantizes outside the try/except,
and the quantized coefficient 10^32 exceeds the default 28-digit context
precision — so parse_decimal is not total on numbers. -/
theorem C9_counterexample :
    parse_decimal (PDInput.num (10 ^ 30)) 0 = .error () := by
  have hq : quantize2E ((10 : ℚ) ^ 30) = .error () := by
    rw [quantize2E, if_neg]
    intro hlt
    rw [roundHalfEven_big] at hlt
    norm_num at hlt
  simp only [parse_decimal, hq]

/-- C9 (amended): parse_decimal never raises on None or on any string: a
parseable finite string yields its 2-dp quantization (a quantize overflow
inside the try yields the default), a quiet-NaN string such as "nan"
yields Decimal('NaN') — whose quantize returns NaN without raising — and
any other string (malformed, infinite, signaling NaN) yields the supplied
default; the numeric branch quantizes outside the try/except, so it raises
for ±Infinity and for finite numbers whose quantized coefficient exceeds
the 28-digit context precision, while a NaN number yields NaN.  Every
successful result is the default, NaN, or a 2-dp decimal. -/
theorem C9_parse_decimal_total (inp : PDInput) (dflt : ℚ)
    (h : ∀ q : ℚ, inp = PDInput.num q →
      (roundHalfEven (q * 100)).natAbs < 10 ^ 28)
    (hinf : inp ≠ PDInput.numInf) :
    (∃ r : PyDec, parse_decimal inp dflt = .ok r ∧
      (r = .fin dflt ∨ r = .nan ∨ ∃ n : ℤ, r = .fin (mkRat n 100))) ∧
    parse_decimal (PDInput.str "nan") dflt = .ok .nan := by
  refine ⟨?_, rfl⟩
  cases inp with
  | noneV => exact ⟨.fin dflt, rfl, Or.inl rfl⟩
  | num q =>
    refine ⟨.fin (quantize2 q), ?_,
      Or.inr (Or.inr ⟨roundHalfEven (q * 100), rfl⟩)⟩
    have hq : quantize2E q = .ok (quantize2 q) := by
      rw [quantize2E, if_pos (h q rfl)]
    simp only [parse_decimal, hq]
  | numNan => exact ⟨.nan, rfl, Or.inr (Or.inl rfl)⟩
  | numInf => exact absurd rfl hinf
  | str s =>
    cases hp : pyDecimalParse (commaToDot (removeDots (pyStrip s))) with
    | malformed =>
      refine ⟨.fin dflt, ?_, Or.inl rfl⟩
      simp only [parse_decimal, hp]
    | raising =>
      refine ⟨.fin dflt, ?_, Or.inl rfl⟩
      simp only [parse_decimal, hp]
    | qnan =>
      refine ⟨.nan, ?_, Or.inr (Or.inl rfl)⟩
      simp only [parse_decimal, hp]
    | fin q =>
      have hred : parse_decimal (PDInput.str s) dflt =
          (match quantize2E q with
           | Except.ok r => Except.ok (PyDec.fin r)
           | Except.error _ => Except.ok (PyDec.fin dflt)) := by
        simp only [parse_decimal, hp]
      rw [hred]
      cases hq : quantize2E q with
      | error e => exact ⟨.fin dflt, rfl, Or.inl rfl⟩
      | ok r =>
        refine ⟨.fin r, rfl, Or.inr (Or.inr ⟨roundHalfEven (q * 100), ?_⟩)⟩
        rw [quantize2E] at hq
        by_cases hb : (roundHalfEven (q * 100)).natAbs < 10 ^ 28
        · rw [if_pos hb] at hq
          cases hq
          rfl
        · rw [if_neg hb] at hq
          cases hq

/-- Witness for the amended C9 at the Brazilian-format string "1.234,56",
also exhibiting the NaN result on the string "nan". -/
theorem C9_parse_decimal_total_witness :
    (∃ r : PyDec, parse_decimal (PDInput.str "1.234,56") 0 = .ok r ∧
      (r = .fin 0 ∨ r = .nan ∨ ∃ n : ℤ, r = .fin (mkRat n 100))) ∧
    parse_decimal (PDInput.str "nan") 0 = .ok .nan :=
  C9_parse_decimal_total (PDInput.str "1.234,56") 0
    (fun _ hq => PDInput.noConfusion hq) (fun hq => PDInput.noConfusion hq)

/-! ## Lemmas: proleptic Gregorian date arithmetic -/

theorem Date.ext' {a b : Date} (h1 : a.year = b.year) (h2 : a.month = b.month)
    (h3 : a.day = b.day) : a = b := by
  cases a
  cases b
  simp_all

theorem mdays_ge {m : Nat} (h1 : 1 ≤ m) (h2 : m ≤ 12) : 28 ≤ mdays m := by
  interval_cases m <;> simp [mdays]

theorem daysInMonth_le {y m : Nat} : daysInMonth y m ≤ mdays m + 1 := by
  rw [daysInMonth]
  split <;> omega

theorem day_le_daysInMonth_all {y y' m dd : Nat} (hne : ¬(m = 2 ∧ dd = 29))
    (h : dd ≤ daysInMonth y m) : dd ≤ daysInMonth y' m := by
  by_cases hm : m = 2
  · subst hm
    have h2 : dd ≤ 29 := le_trans h (by simpa [mdays] using daysInMonth_le (y := y) (m := 2))
    have h3 : dd ≠ 29 := fun hd => hne ⟨rfl, hd⟩
    rw [daysInMonth]
    have : 28 ≤ mdays 2 + (if 2 = 2 ∧ isleap y' = true then 1 else 0) := by
      split <;> simp [mdays]
    omega
  · rw [daysInMonth, if_neg (fun hc => hm hc.1)] at h ⊢
    exact h

theorem dbm_succ (y m : Nat) :
    daysBeforeMonth y (m + 1) = daysBeforeMonth y m + daysInMonth y m := rfl

theorem dbm_mono (y : Nat) {m m' : Nat} (h : m ≤ m') :
    daysBeforeMonth y m ≤ daysBeforeMonth y m' := by
  induction m', h using Nat.le_induction with
  | base => exact le_refl _
  | succ k hk ih => exact le_trans ih (by rw [dbm_succ]; omega)

theorem dbm13 (y : Nat) : daysBeforeMonth y 13 = daysInYear y := by
  cases hl : isleap y <;>
    simp [daysBeforeMonth, daysInMonth, mdays, daysInYear, hl]

theorem dby_succ (y : Nat) (hy : 1 ≤ y) :
    daysBeforeYear (y + 1) = daysBeforeYear y + daysInYear y := by
  obtain ⟨k, rfl⟩ : ∃ k, y = k + 1 := ⟨y - 1, by omega⟩
  rw [daysBeforeYear, daysBeforeYear, daysInYear, isleap]
  simp only [Nat.add_sub_cancel, decide_eq_true_eq]
  rw [show (k + 1) / 4 = k / 4 + if 4 ∣ k + 1 then 1 else 0 from Nat.succ_div k 4,
    show (k + 1) / 100 = k / 100 + if 100 ∣ k + 1 then 1 else 0 from Nat.succ_div k 100,
    show (k + 1) / 400 = k / 400 + if 400 ∣ k + 1 then 1 else 0 from Nat.succ_div k 400]
  split_ifs <;> omega

theorem dby_mono {y y' : Nat} (h : y ≤ y') :
    daysBeforeYear y ≤ daysBeforeYear y' := by
  induction y', h using Nat.le_induction with
  | base => exact le_refl _
  | succ k hk ih =>
    refine le_trans ih ?_
    cases k with
    | zero => simp [daysBeforeYear]
    | succ n => rw [dby_succ (n + 1) (by omega)]; omega

theorem toOrdinal_le_year_end {a : Date} (ha : dateValid a) :
    toOrdinal a ≤ daysBeforeYear (a.year + 1) := by
  obtain ⟨hy1, _, hm1, hm2, _, hd2⟩ := ha
  rw [toOrdinal, dby_succ a.year hy1, ← dbm13 a.year]
  have h1 : daysBeforeMonth a.year a.month + a.day ≤
      daysBeforeMonth a.year (a.month + 1) := by
    rw [dbm_succ]
    omega
  have h2 : daysBeforeMonth a.year (a.month + 1) ≤ daysBeforeMonth a.year 13 :=
    dbm_mono a.year (by omega)
  omega

theorem dby_lt_toOrdinal {a : Date} (ha : dateValid a) :
    daysBeforeYear a.year < toOrdinal a := by
  obtain ⟨_, _, _, _, hd1, _⟩ := ha
  rw [toOrdinal]
  omega

theorem toOrdinal_lt_of_dateLt {a b : Date} (ha : dateValid a) (hb : dateValid b)
    (h : dateLt a b) : toOrdinal a < toOrdinal b := by
  rcases h with hy | ⟨hy, hm | ⟨hm, hd⟩⟩
  · have h1 : toOrdinal a ≤ daysBeforeYear (a.year + 1) := toOrdinal_le_year_end ha
    have h2 : daysBeforeYear (a.year + 1) ≤ daysBeforeYear b.year := dby_mono (by omega)
    have h3 : daysBeforeYear b.year < toOrdinal b := dby_lt_toOrdinal hb
    omega
  · obtain ⟨_, _, _, _, hda, hda2⟩ := ha
    obtain ⟨_, _, _, _, hdb, _⟩ := hb
    rw [toOrdinal, toOrdinal, hy]
    rw [hy] at hda2
    have h1 : daysBeforeMonth b.year a.month + a.day ≤
        daysBeforeMonth b.year (a.month + 1) := by
      rw [dbm_succ]
      omega
    have h2 : daysBeforeMonth b.year (a.month + 1) ≤ daysBeforeMonth b.year b.month :=
      dbm_mono b.year (by omega)
    omega
  · rw [toOrdinal, toOrdinal, hy, hm]
    omega

theorem dateLt_trichotomy (a b : Date) : dateLt a b ∨ a = b ∨ dateLt b a := by
  rcases Nat.lt_trichotomy a.year b.year with hy | hy | hy
  · exact Or.inl (Or.inl hy)
  · rcases Nat.lt_trichotomy a.month b.month with hm | hm | hm
    · exact Or.inl (Or.inr ⟨hy, Or.inl hm⟩)
    · rcases Nat.lt_trichotomy a.day b.day with hd | hd | hd
      · exact Or.inl (Or.inr ⟨hy, Or.inr ⟨hm, hd⟩⟩)
      · exact Or.inr (Or.inl (Date.ext' hy hm hd))
      · exact Or.inr (Or.inr (Or.inr ⟨hy.symm, Or.inr ⟨hm.symm, hd⟩⟩))
    · exact Or.inr (Or.inr (Or.inr ⟨hy.symm, Or.inl hm⟩))
  · exact Or.inr (Or.inr (Or.inl hy))

theorem toOrdinal_le_of_not_dateLt {a b : Date} (ha : dateValid a) (hb : dateValid b)
    (h : ¬ dateLt a b) : toOrdinal b ≤ toOrdinal a := by
  rcases dateLt_trichotomy a b with hlt | rfl | hgt
  · exact absurd hlt h
  · exact le_refl _
  · exact le_of_lt (toOrdinal_lt_of_dateLt hb ha hgt)

theorem eq_of_toOrdinal_eq {a b : Date} (ha : dateValid a) (hb : dateValid b)
    (h : toOrdinal a = toOrdinal b) : a = b := by
  rcases dateLt_trichotomy a b with hlt | heq | hgt
  · exact absurd h (Nat.ne_of_lt (toOrdinal_lt_of_dateLt ha hb hlt))
  · exact heq
  · exact absurd h.symm (Nat.ne_of_lt (toOrdinal_lt_of_dateLt hb ha hgt))

theorem dateValid_mk {y m d : Nat} (h1 : 1 ≤ y) (h2 : y ≤ 9999) (h3 : 1 ≤ m)
    (h4 : m ≤ 12) (h5 : 1 ≤ d) (h6 : d ≤ daysInMonth y m) :
    dateValid ⟨y, m, d⟩ := ⟨h1, h2, h3, h4, h5, h6⟩

theorem replaceYear_ok {d : Date} {y : Nat} (h1 : 1 ≤ y) (h2 : y ≤ 9999)
    (h3 : 1 ≤ d.day) (h4 : d.day ≤ daysInMonth y d.month) :
    replaceYear d y = .ok ⟨y, d.month, d.day⟩ := by
  rw [replaceYear, if_pos ⟨h1, h2, h3, h4⟩]

theorem dateLt_irrefl (a : Date) : ¬ dateLt a a := by
  intro h
  rcases h with h | ⟨_, h | ⟨_, h⟩⟩ <;> exact absurd h (lt_irrefl _)

theorem mkEntry_dias (turmas : List Turma) (a : Aluno) (dias : ℤ) :
    (mkEntry turmas a dias).dias = dias := rfl

theorem upcomingAux_le45 (turmas : List Turma) (hoje : Date) :
    ∀ (alunos : List Aluno) (l : List BirthdayEntry),
      upcomingAux turmas hoje alunos = .ok l → ∀ e ∈ l, e.dias ≤ 45
  | [], l, h, e, he => by
    cases h
    cases he
  | a :: rest, l, h, e, he => by
    rw [upcomingAux] at h
    split at h
    · exact absurd h (by simp)
    · exact upcomingAux_le45 turmas hoje rest l h e he
    · rename_i dias heq
      split at h
      · exact upcomingAux_le45 turmas hoje rest l h e he
      · rename_i h45
        split at h
        · exact absurd h (by simp)
        · rename_i l' hrest
          rw [Except.ok.injEq] at h
          subst h
          rcases List.mem_cons.mp he with rfl | hm
          · rw [mkEntry_dias]
            omega
          · exact upcomingAux_le45 turmas hoje rest l' hrest e hm

/-- C10 counterexample: a valid, non-February-29 birth date with the valid
reference date 9999-12-31 (birthday already passed that year) makes
dias_para_aniversario raise — date.replace(year = 10000) exceeds Python's
MAXYEAR — instead of returning a non-negative day count for every
non-Feb-29 birth date. -/
theorem C10_counterexample :
    ¬((⟨1990, 1, 1⟩ : Date).month = 2 ∧ (⟨1990, 1, 1⟩ : Date).day = 29) ∧
    dateValid ⟨1990, 1, 1⟩ ∧ dateValid ⟨9999, 12, 31⟩ ∧
    dias_para_aniversario (some ⟨1990, 1, 1⟩) ⟨9999, 12, 31⟩ = .error () :=
  ⟨by decide, by decide, by decide, by decide⟩

/-- C10 (amended): for a known birth date whose month/day is not Feb 29 and
a reference date of year at most 9998 (Python dates cap at year 9999 — at
reference year 9999 a passed birthday raises instead), the computation
returns a non-negative day count to the next occurrence of the birth
month/day: 0 exactly when it is today, realised by a valid date with that
month/day, not before the reference, minimal among all such dates.  A
Feb-29 birth date with non-leap reference year raises.  Any successful
upcoming_birthdays list has at most 6 entries, sorted ascending by days
remaining, all at most 45 days away; with a Feb-29 student and a non-leap
reference year it raises instead of returning. -/
theorem C10_birthday_computation :
    (∀ (nasc ref : Date), dateValid nasc → dateValid ref → ref.year ≤ 9998 →
      ¬(nasc.month = 2 ∧ nasc.day = 29) →
      ∃ n : ℤ, dias_para_aniversario (some nasc) ref = .ok (some n) ∧ 0 ≤ n ∧
        (n = 0 ↔ (ref.month = nasc.month ∧ ref.day = nasc.day)) ∧
        ∃ t : Date, dateValid t ∧ t.month = nasc.month ∧ t.day = nasc.day ∧
          ¬ dateLt t ref ∧ (toOrdinal t : ℤ) = (toOrdinal ref : ℤ) + n ∧
          ∀ u : Date, dateValid u → u.month = nasc.month → u.day = nasc.day →
            ¬ dateLt u ref → toOrdinal t ≤ toOrdinal u) ∧
    dias_para_aniversario (some ⟨2000, 2, 29⟩) ⟨2025, 3, 1⟩ = .error () ∧
    (∀ (turmas : List Turma) (alunos : List Aluno) (hoje : Date)
        (res : List BirthdayEntry),
      upcoming_birthdays turmas alunos hoje = .ok res →
      res.length ≤ 6 ∧ res.Sorted (fun e f => e.dias ≤ f.dias) ∧
      ∀ e ∈ res, e.dias ≤ 45) ∧
    upcoming_birthdays [] [alunoC10] ⟨2025, 3, 1⟩ = .error () := by
  refine ⟨?_, by decide, ?_, by decide⟩
  · intro nasc ref hvn hvr hyr hne
    obtain ⟨hny1, hny2, hnm1, hnm2, hnd1, hnd2⟩ := id hvn
    obtain ⟨hry1, hry2, hrm1, hrm2, hrd1, hrd2⟩ := id hvr
    have hday : nasc.day ≤ daysInMonth ref.year nasc.month :=
      day_le_daysInMonth_all hne hnd2
    have hrep1 : replaceYear nasc ref.year = .ok ⟨ref.year, nasc.month, nasc.day⟩ :=
      replaceYear_ok hry1 (by omega) hnd1 hday
    have hvp : dateValid (⟨ref.year, nasc.month, nasc.day⟩ : Date) :=
      dateValid_mk hry1 (by omega) hnm1 hnm2 hnd1 hday
    by_cases hlt : dateLt ⟨ref.year, nasc.month, nasc.day⟩ ref
    · have hday2 : nasc.day ≤ daysInMonth (ref.year + 1) nasc.month :=
        day_le_daysInMonth_all hne hnd2
      have hrep2 : replaceYear ⟨ref.year, nasc.month, nasc.day⟩ (ref.year + 1) =
          .ok ⟨ref.year + 1, nasc.month, nasc.day⟩ :=
        replaceYear_ok (by omega) (by omega) hnd1 hday2
      have hvt : dateValid (⟨ref.year + 1, nasc.month, nasc.day⟩ : Date) :=
        dateValid_mk (by omega) (by omega) hnm1 hnm2 hnd1 hday2
      have heq : dias_para_aniversario (some nasc) ref =
          .ok (some ((toOrdinal ⟨ref.year + 1, nasc.month, nasc.day⟩ : ℤ) -
            (toOrdinal ref : ℤ))) := by
        simp only [dias_para_aniversario, hrep1]
        rw [if_pos hlt]
        simp only [hrep2]
      have hord : toOrdinal ref < toOrdinal ⟨ref.year + 1, nasc.month, nasc.day⟩ :=
        toOrdinal_lt_of_dateLt hvr hvt (Or.inl (Nat.lt_succ_self ref.year))
      refine ⟨_, heq, by omega, ?_, ⟨ref.year + 1, nasc.month, nasc.day⟩,
        hvt, rfl, rfl, ?_, by ring, ?_⟩
      · constructor
        · intro h0
          exfalso
          have hoe : toOrdinal (⟨ref.year + 1, nasc.month, nasc.day⟩ : Date) =
              toOrdinal ref := by omega
          have h9 : ref.year + 1 = ref.year :=
            congrArg Date.year (eq_of_toOrdinal_eq hvt hvr hoe)
          omega
        · intro hmd
          exfalso
          have hpe : (⟨ref.year, nasc.month, nasc.day⟩ : Date) = ref :=
            Date.ext' rfl hmd.1.symm hmd.2.symm
          rw [hpe] at hlt
          exact dateLt_irrefl ref hlt
      · intro hltt
        rcases hltt with h | ⟨h, _⟩
        · have h9 : ref.year + 1 < ref.year := h
          omega
        · have h9 : ref.year + 1 = ref.year := h
          omega
      · intro u hvu hum hud hnu
        rcases Nat.lt_trichotomy u.year ref.year with h | h | h
        · exact absurd (Or.inl h) hnu
        · exfalso
          have hup : u = ⟨ref.year, nasc.month, nasc.day⟩ := Date.ext' h hum hud
          rw [hup] at hnu
          exact hnu hlt
        · rcases eq_or_lt_of_le (by omega : ref.year + 1 ≤ u.year) with h2 | h2
          · have hut : u = ⟨ref.year + 1, nasc.month, nasc.day⟩ :=
              Date.ext' h2.symm hum hud
            rw [hut]
          · exact le_of_lt (toOrdinal_lt_of_dateLt hvt hvu (Or.inl h2))
    · have heq : dias_para_aniversario (some nasc) ref =
          .ok (some ((toOrdinal ⟨ref.year, nasc.month, nasc.day⟩ : ℤ) -
            (toOrdinal ref : ℤ))) := by
        simp only [dias_para_aniversario, hrep1]
        rw [if_neg hlt]
      have hord : toOrdinal ref ≤ toOrdinal ⟨ref.year, nasc.month, nasc.day⟩ :=
        toOrdinal_le_of_not_dateLt hvp hvr hlt
      refine ⟨_, heq, by omega, ?_, ⟨ref.year, nasc.month, nasc.day⟩,
        hvp, rfl, rfl, hlt, by ring, ?_⟩
      · constructor
        · intro h0
          have hoe : toOrdinal (⟨ref.year, nasc.month, nasc.day⟩ : Date) =
              toOrdinal ref := by omega
          have hpe := eq_of_toOrdinal_eq hvp hvr hoe
          exact ⟨(congrArg Date.month hpe).symm, (congrArg Date.day hpe).symm⟩
        · intro hmd
          have hpe : (⟨ref.year, nasc.month, nasc.day⟩ : Date) = ref :=
            Date.ext' rfl hmd.1.symm hmd.2.symm
          rw [hpe]
          omega
      · intro u hvu hum hud hnu
        rcases Nat.lt_trichotomy u.year ref.year with h | h | h
        · exact absurd (Or.inl h) hnu
        · have hup : u = ⟨ref.year, nasc.month, nasc.day⟩ := Date.ext' h hum hud
          rw [hup]
        · exact le_of_lt (toOrdinal_lt_of_dateLt hvp hvu (Or.inl h))
  · intro turmas alunos hoje res h
    rw [upcoming_birthdays] at h
    cases haux : upcomingAux turmas hoje alunos with
    | error u =>
      rw [haux] at h
      cases h
    | ok l =>
      rw [haux] at h
      cases h
      haveI : IsTotal BirthdayEntry (fun e f => e.dias ≤ f.dias) :=
        ⟨fun a b => Int.le_total a.dias b.dias⟩
      haveI : IsTrans BirthdayEntry (fun e f => e.dias ≤ f.dias) :=
        ⟨fun a b c hab hbc => le_trans hab hbc⟩
      refine ⟨?_, ?_, ?_⟩
      · rw [List.length_take]
        omega
      · have hsorted : List.Sorted (fun e f => e.dias ≤ f.dias)
            (List.insertionSort (fun e f => e.dias ≤ f.dias) l) :=
          List.sorted_insertionSort (fun e f => e.dias ≤ f.dias) l
        exact List.Pairwise.sublist (List.take_sublist 6 _) hsorted
      · intro e he
        have he2 : e ∈ l :=
          (List.perm_insertionSort (fun e f => e.dias ≤ f.dias) l).mem_iff.mp
            (List.mem_of_mem_take he)
        exact upcomingAux_le45 turmas hoje alunos l haux e he2

/-- Witness for the amended C10: the general clause applied at a birthday
of June 15 with reference the day after in 2025 (wrapping to next year). -/
theorem C10_birthday_computation_witness :
    (dateValid ⟨2000, 6, 15⟩ ∧ dateValid ⟨2025, 6, 16⟩ ∧
      (⟨2025, 6, 16⟩ : Date).year ≤ 9998 ∧
      ¬((⟨2000, 6, 15⟩ : Date).month = 2 ∧ (⟨2000, 6, 15⟩ : Date).day = 29)) ∧
    (∃ n : ℤ, dias_para_aniversario (some ⟨2000, 6, 15⟩) ⟨2025, 6, 16⟩ =
        .ok (some n) ∧ 0 ≤ n ∧
      (n = 0 ↔ ((⟨2025, 6, 16⟩ : Date).month = (⟨2000, 6, 15⟩ : Date).month ∧
        (⟨2025, 6, 16⟩ : Date).day = (⟨2000, 6, 15⟩ : Date).day)) ∧
      ∃ t : Date, dateValid t ∧ t.month = (⟨2000, 6, 15⟩ : Date).month ∧
        t.day = (⟨2000, 6, 15⟩ : Date).day ∧ ¬ dateLt t ⟨2025, 6, 16⟩ ∧
        (toOrdinal t : ℤ) = (toOrdinal ⟨2025, 6, 16⟩ : ℤ) + n ∧
        ∀ u : Date, dateValid u → u.month = (⟨2000, 6, 15⟩ : Date).month →
          u.day = (⟨2000, 6, 15⟩ : Date).day → ¬ dateLt u ⟨2025, 6, 16⟩ →
          toOrdinal t ≤ toOrdinal u) :=
  ⟨⟨by decide, by decide, by decide, by decide⟩,
    C10_birthday_computation.1 ⟨2000, 6, 15⟩ ⟨2025, 6, 16⟩ (by decide) (by decide)
      (by decide) (by decide)⟩

end Escolinha
